import Mathlib

set_option maxRecDepth 100000

/-!
Verification of `media/base/yuv_scale.cc` (planar YUV → packed ARGB scaling).

The C code is shallowly embedded as follows: sample planes are `List Nat`
(each entry one `uint8` value), pointers are integer byte offsets into those
lists, and every memory read goes through `readU8`, which returns `none` for
an access outside the buffer (an out-of-bounds read is undefined behavior in
the C code, so a computation touching one is modelled as failing).  `int`
arithmetic is `Int` arithmetic: C division truncates toward zero and is
modelled by `Int.tdiv`; `>>` on a negative signed value is an arithmetic
(sign-extending) shift on two's complement hardware and is modelled by
flooring division (`asr`); `& 15` on two's complement is the nonnegative
remainder mod 16.  The RGB output is modelled both as the matrix of produced
32-bit pixels (`List (List Nat)`) and, for the write-footprint analysis, as a
byte-addressed buffer `Int → Nat` updated by explicit stores.
-/

namespace media

/-- Rotation selector from `media/base/yuv_scale.h` (see spec §3): rotations by
0/90/180/270 degrees and their four mirrored variants. -/
inductive Rotate
  | ROTATE_0
  | ROTATE_90
  | ROTATE_180
  | ROTATE_270
  | MIRROR_ROTATE_0
  | MIRROR_ROTATE_90
  | MIRROR_ROTATE_180
  | MIRROR_ROTATE_270
deriving DecidableEq, Repr

open Rotate

/-- C arithmetic right shift of a signed value: `v >> n` on two's complement
rounds toward negative infinity. -/
def asr (v : Int) (n : Nat) : Int := Int.fdiv v (2 ^ n)

def kClipTableSize : Int := 256

def kClipOverflow : Int := 128

/-- `g_rgb_clip_table`: 128 underflow entries clipped to 0, the 256 identity
entries, 128 overflow entries clipped to 255. -/
def g_rgb_clip_table : List Nat := [
  0x00, 0x00, 0x00, 0x00, 0x00, 0x00, 0x00, 0x00, 0x00, 0x00, 0x00, 0x00, 0x00, 0x00, 0x00, 0x00,
  0x00, 0x00, 0x00, 0x00, 0x00, 0x00, 0x00, 0x00, 0x00, 0x00, 0x00, 0x00, 0x00, 0x00, 0x00, 0x00,
  0x00, 0x00, 0x00, 0x00, 0x00, 0x00, 0x00, 0x00, 0x00, 0x00, 0x00, 0x00, 0x00, 0x00, 0x00, 0x00,
  0x00, 0x00, 0x00, 0x00, 0x00, 0x00, 0x00, 0x00, 0x00, 0x00, 0x00, 0x00, 0x00, 0x00, 0x00, 0x00,
  0x00, 0x00, 0x00, 0x00, 0x00, 0x00, 0x00, 0x00, 0x00, 0x00, 0x00, 0x00, 0x00, 0x00, 0x00, 0x00,
  0x00, 0x00, 0x00, 0x00, 0x00, 0x00, 0x00, 0x00, 0x00, 0x00, 0x00, 0x00, 0x00, 0x00, 0x00, 0x00,
  0x00, 0x00, 0x00, 0x00, 0x00, 0x00, 0x00, 0x00, 0x00, 0x00, 0x00, 0x00, 0x00, 0x00, 0x00, 0x00,
  0x00, 0x00, 0x00, 0x00, 0x00, 0x00, 0x00, 0x00, 0x00, 0x00, 0x00, 0x00, 0x00, 0x00, 0x00, 0x00,
  0x00, 0x01, 0x02, 0x03, 0x04, 0x05, 0x06, 0x07, 0x08, 0x09, 0x0A, 0x0B, 0x0C, 0x0D, 0x0E, 0x0F,
  0x10, 0x11, 0x12, 0x13, 0x14, 0x15, 0x16, 0x17, 0x18, 0x19, 0x1A, 0x1B, 0x1C, 0x1D, 0x1E, 0x1F,
  0x20, 0x21, 0x22, 0x23, 0x24, 0x25, 0x26, 0x27, 0x28, 0x29, 0x2A, 0x2B, 0x2C, 0x2D, 0x2E, 0x2F,
  0x30, 0x31, 0x32, 0x33, 0x34, 0x35, 0x36, 0x37, 0x38, 0x39, 0x3A, 0x3B, 0x3C, 0x3D, 0x3E, 0x3F,
  0x40, 0x41, 0x42, 0x43, 0x44, 0x45, 0x46, 0x47, 0x48, 0x49, 0x4A, 0x4B, 0x4C, 0x4D, 0x4E, 0x4F,
  0x50, 0x51, 0x52, 0x53, 0x54, 0x55, 0x56, 0x57, 0x58, 0x59, 0x5A, 0x5B, 0x5C, 0x5D, 0x5E, 0x5F,
  0x60, 0x61, 0x62, 0x63, 0x64, 0x65, 0x66, 0x67, 0x68, 0x69, 0x6A, 0x6B, 0x6C, 0x6D, 0x6E, 0x6F,
  0x70, 0x71, 0x72, 0x73, 0x74, 0x75, 0x76, 0x77, 0x78, 0x79, 0x7A, 0x7B, 0x7C, 0x7D, 0x7E, 0x7F,
  0x80, 0x81, 0x82, 0x83, 0x84, 0x85, 0x86, 0x87, 0x88, 0x89, 0x8A, 0x8B, 0x8C, 0x8D, 0x8E, 0x8F,
  0x90, 0x91, 0x92, 0x93, 0x94, 0x95, 0x96, 0x97, 0x98, 0x99, 0x9A, 0x9B, 0x9C, 0x9D, 0x9E, 0x9F,
  0xA0, 0xA1, 0xA2, 0xA3, 0xA4, 0xA5, 0xA6, 0xA7, 0xA8, 0xA9, 0xAA, 0xAB, 0xAC, 0xAD, 0xAE, 0xAF,
  0xB0, 0xB1, 0xB2, 0xB3, 0xB4, 0xB5, 0xB6, 0xB7, 0xB8, 0xB9, 0xBA, 0xBB, 0xBC, 0xBD, 0xBE, 0xBF,
  0xC0, 0xC1, 0xC2, 0xC3, 0xC4, 0xC5, 0xC6, 0xC7, 0xC8, 0xC9, 0xCA, 0xCB, 0xCC, 0xCD, 0xCE, 0xCF,
  0xD0, 0xD1, 0xD2, 0xD3, 0xD4, 0xD5, 0xD6, 0xD7, 0xD8, 0xD9, 0xDA, 0xDB, 0xDC, 0xDD, 0xDE, 0xDF,
  0xE0, 0xE1, 0xE2, 0xE3, 0xE4, 0xE5, 0xE6, 0xE7, 0xE8, 0xE9, 0xEA, 0xEB, 0xEC, 0xED, 0xEE, 0xEF,
  0xF0, 0xF1, 0xF2, 0xF3, 0xF4, 0xF5, 0xF6, 0xF7, 0xF8, 0xF9, 0xFA, 0xFB, 0xFC, 0xFD, 0xFE, 0xFF,
  0xFF, 0xFF, 0xFF, 0xFF, 0xFF, 0xFF, 0xFF, 0xFF, 0xFF, 0xFF, 0xFF, 0xFF, 0xFF, 0xFF, 0xFF, 0xFF,
  0xFF, 0xFF, 0xFF, 0xFF, 0xFF, 0xFF, 0xFF, 0xFF, 0xFF, 0xFF, 0xFF, 0xFF, 0xFF, 0xFF, 0xFF, 0xFF,
  0xFF, 0xFF, 0xFF, 0xFF, 0xFF, 0xFF, 0xFF, 0xFF, 0xFF, 0xFF, 0xFF, 0xFF, 0xFF, 0xFF, 0xFF, 0xFF,
  0xFF, 0xFF, 0xFF, 0xFF, 0xFF, 0xFF, 0xFF, 0xFF, 0xFF, 0xFF, 0xFF, 0xFF, 0xFF, 0xFF, 0xFF, 0xFF,
  0xFF, 0xFF, 0xFF, 0xFF, 0xFF, 0xFF, 0xFF, 0xFF, 0xFF, 0xFF, 0xFF, 0xFF, 0xFF, 0xFF, 0xFF, 0xFF,
  0xFF, 0xFF, 0xFF, 0xFF, 0xFF, 0xFF, 0xFF, 0xFF, 0xFF, 0xFF, 0xFF, 0xFF, 0xFF, 0xFF, 0xFF, 0xFF,
  0xFF, 0xFF, 0xFF, 0xFF, 0xFF, 0xFF, 0xFF, 0xFF, 0xFF, 0xFF, 0xFF, 0xFF, 0xFF, 0xFF, 0xFF, 0xFF,
  0xFF, 0xFF, 0xFF, 0xFF, 0xFF, 0xFF, 0xFF, 0xFF, 0xFF, 0xFF, 0xFF, 0xFF, 0xFF, 0xFF, 0xFF, 0xFF
]

/-- Read one `uint8` at (possibly negative) offset `i` of a buffer.  An access
outside the buffer is undefined behavior in C and is modelled as `none`. -/
def readU8 (buf : List Nat) (i : Int) : Option Nat :=
  if 0 ≤ i then buf[i.toNat]? else none

/-- The table index formed by `clip`: `((value) >> 8) + kClipOverflow`. -/
def clipIndex (value : Int) : Int := asr value 8 + kClipOverflow

/-- `clip`: look the 8.8 fixed-point value up in `g_rgb_clip_table`. -/
def clip (value : Int) : Option Nat := readU8 g_rgb_clip_table (clipIndex value)

/-- The color transform and packing applied to one pixel.  This block appears
verbatim in both `ScaleYV12ToRGB32Row` and `HalfYV12ToRGB32Row` (with the
respective blended luma passed as `y0`):
`d = u - 128`, `e = v - 128`, `cb = 516 d + 128`, `cg = -100 d - 208 e + 128`,
`cr = 409 e + 128`, `C298a = (y0 - 16) * 298 + 128`, output
`clip(C298a+cb) | clip(C298a+cg) << 8 | clip(C298a+cr) << 16 | 0xff000000`. -/
def yuvToPixel (y0 u v : Nat) : Option Nat :=
  let d : Int := (u : Int) - 128
  let e : Int := (v : Int) - 128
  let cb : Int := 516 * d + 128
  let cg : Int := -100 * d - 208 * e + 128
  let cr : Int := 409 * e + 128
  let C298a : Int := ((y0 : Int) - 16) * 298 + 128
  do
    let b ← clip (C298a + cb)
    let g ← clip (C298a + cg)
    let r ← clip (C298a + cr)
    pure (b ||| (g <<< 8) ||| (r <<< 16) ||| 0xff000000)

/-- `(scaled_x & 15) >> 2`: on two's complement `& 15` is the nonnegative
remainder mod 16 (`Int.emod`), after which `>> 2` is plain division by 4. -/
def interpPattern (scaled_x : Int) : Int := scaled_x % 16 / 4

/-- The `switch ((scaled_x & 15) >> 2)` quarter-pixel blend of the two luma
samples (all intermediate sums fit in `int`, so plain `Nat` arithmetic). -/
def blendLuma (y0 y1 : Nat) (pattern : Int) : Nat :=
  if pattern = 1 then (y0 + y0 + y0 + y1) >>> 2
  else if pattern = 2 then (y0 + y1) >>> 1
  else if pattern = 3 then (y0 + y1 + y1 + y1) >>> 2
  else y0

/-- Body of one iteration of the loop in `ScaleYV12ToRGB32Row` at fixed-point
source position `scaled_x`; `yo`/`uo`/`vo` are the row base offsets of the
three plane pointers. -/
def scalePixelAt (ybuf ubuf vbuf : List Nat) (yo uo vo scaled_x : Int) :
    Option Nat := do
  let u ← readU8 ubuf (uo + asr scaled_x 5)
  let v ← readU8 vbuf (vo + asr scaled_x 5)
  let y0 ← readU8 ybuf (yo + asr scaled_x 4)
  let y1 ← readU8 ybuf (yo + asr scaled_x 4 + 1)
  yuvToPixel (blendLuma y0 y1 (interpPattern scaled_x)) u v

/-- The loop of `ScaleYV12ToRGB32Row`: `scaled_x` starts at 0 and accumulates
`scaled_dx` once per destination pixel. -/
def scaleRowAux (ybuf ubuf vbuf : List Nat) (yo uo vo scaled_dx : Int) :
    Nat → Int → Option (List Nat)
  | 0, _ => some []
  | n + 1, scaled_x => do
    let px ← scalePixelAt ybuf ubuf vbuf yo uo vo scaled_x
    let rest ← scaleRowAux ybuf ubuf vbuf yo uo vo scaled_dx n
      (scaled_x + scaled_dx)
    pure (px :: rest)

/-- `ScaleYV12ToRGB32Row`: general-ratio row converter.
`scaled_dx = width * 16 / scaled_width` (C division truncates toward zero);
dividing by `scaled_width = 0` is undefined behavior, modelled as `none`.
A nonpositive `scaled_width` runs the loop zero times. -/
def ScaleYV12ToRGB32Row (ybuf ubuf vbuf : List Nat) (yo uo vo : Int)
    (width scaled_width : Int) : Option (List Nat) :=
  if scaled_width = 0 then none
  else scaleRowAux ybuf ubuf vbuf yo uo vo
    (Int.tdiv (width * 16) scaled_width) scaled_width.toNat 0

/-- Body of one iteration of the loop in `HalfYV12ToRGB32Row`: chroma at `x`,
luma the average of samples `x * 2` and `x * 2 + 1`. -/
def halfPixelAt (ybuf ubuf vbuf : List Nat) (yo uo vo : Int) (x : Nat) :
    Option Nat := do
  let u ← readU8 ubuf (uo + (x : Int))
  let v ← readU8 vbuf (vo + (x : Int))
  let y0 ← readU8 ybuf (yo + (x : Int) * 2)
  let y1 ← readU8 ybuf (yo + (x : Int) * 2 + 1)
  yuvToPixel ((y0 + y1) >>> 1) u v

/-- A C `for (x = i; x < i + n; ++x)` loop collecting one pixel per
iteration; fails if any iteration fails. -/
def collect (f : Nat → Option Nat) : Nat → Nat → Option (List Nat)
  | 0, _ => some []
  | n + 1, i => do
    let a ← f i
    let rest ← collect f (n) (i + 1)
    pure (a :: rest)

/-- `HalfYV12ToRGB32Row`: 2:1 row converter. -/
def HalfYV12ToRGB32Row (ybuf ubuf vbuf : List Nat) (yo uo vo : Int)
    (width : Int) : Option (List Nat) :=
  collect (halfPixelAt ybuf ubuf vbuf yo uo vo) width.toNat 0

/-- Modelled from the spec: `ConvertYV12ToRGB32Row` is only declared in
`yuv_scale.cc` (`extern "C"`, its definition is outside the given sources).
Per spec §4.4 step 3 it is the identity-ratio path of the general row
converter (step = 16, no blending): chroma sampled at `x / 2`, luma at `x`,
with the same color transform and packing. -/
def ConvertYV12ToRGB32Row (ybuf ubuf vbuf : List Nat) (yo uo vo : Int)
    (width : Int) : Option (List Nat) :=
  collect (fun x => do
    let u ← readU8 ubuf (uo + (x : Int) / 2)
    let v ← readU8 vbuf (vo + (x : Int) / 2)
    let y0 ← readU8 ybuf (yo + (x : Int))
    yuvToPixel y0 u v) width.toNat 0

/-- Sequence a list of optional pixels: the whole list, or failure. -/
def seqOpt {α : Type} : List (Option α) → Option (List α)
  | [] => some []
  | o :: rest => do
    let a ← o
    let l ← seqOpt rest
    pure (a :: l)

/-- Rotations whose first block `width = -width` runs: they start reading at
the right side of the image. -/
def startsRight : Rotate → Bool
  | ROTATE_180 => true
  | ROTATE_270 => true
  | MIRROR_ROTATE_0 => true
  | MIRROR_ROTATE_90 => true
  | _ => false

/-- Rotations whose second block `height = -height` runs: they start reading
at the bottom of the image. -/
def startsBottom : Rotate → Bool
  | ROTATE_90 => true
  | ROTATE_180 => true
  | MIRROR_ROTATE_90 => true
  | MIRROR_ROTATE_180 => true
  | _ => false

/-- Net adjustment of the luma pointer made by the two rotation blocks of
`ScaleYV12ToRGB32` / `ScaleYV16ToRGB32`. -/
def yStart (width height y_pitch : Int) (r : Rotate) : Int :=
  (if startsRight r then width - 1 else 0) +
    (if startsBottom r then (height - 1) * y_pitch else 0)

/-- Net adjustment of a chroma pointer in `ScaleYV12ToRGB32` (4:2:0: the
vertical rebase uses `height / 2 - 1` chroma rows). -/
def uvStart420 (width height uv_pitch : Int) (r : Rotate) : Int :=
  (if startsRight r then Int.tdiv width 2 - 1 else 0) +
    (if startsBottom r then (Int.tdiv height 2 - 1) * uv_pitch else 0)

/-- Net adjustment of a chroma pointer in `ScaleYV16ToRGB32` (4:2:2: the
vertical rebase uses `height - 1` chroma rows). -/
def uvStart422 (width height uv_pitch : Int) (r : Rotate) : Int :=
  (if startsRight r then Int.tdiv width 2 - 1 else 0) +
    (if startsBottom r then (height - 1) * uv_pitch else 0)

/-- `width = -width` after the first rotation block. -/
def effWidth (width : Int) (r : Rotate) : Int :=
  if startsRight r then -width else width

/-- `height = -height` after the second rotation block. -/
def effHeight (height : Int) (r : Rotate) : Int :=
  if startsBottom r then -height else height

/-- One iteration of the row loop of `ScaleYV12ToRGB32`, for destination row
`y`: the locals `scaled_y = y * height / scaled_height`,
`y_ptr = y_buf + scaled_y * y_pitch` and `u_ptr`/`v_ptr` at chroma row
`scaled_y / 2` (4:2:0) are inlined at each use; the row is dispatched to the
identity, half, or general converter.  `w`, `h` and the offsets are the
values after rotation adjustment. -/
def yv12RowBody (ybuf ubuf vbuf : List Nat) (yo uo vo w h sw sh y_pitch
    uv_pitch : Int) (y : Nat) : Option (List Nat) :=
  if sw = w then
    ConvertYV12ToRGB32Row ybuf ubuf vbuf
      (yo + Int.tdiv ((y : Int) * h) sh * y_pitch)
      (uo + Int.tdiv (Int.tdiv ((y : Int) * h) sh) 2 * uv_pitch)
      (vo + Int.tdiv (Int.tdiv ((y : Int) * h) sh) 2 * uv_pitch) sw
  else if sw = Int.tdiv w 2 then
    HalfYV12ToRGB32Row ybuf ubuf vbuf
      (yo + Int.tdiv ((y : Int) * h) sh * y_pitch)
      (uo + Int.tdiv (Int.tdiv ((y : Int) * h) sh) 2 * uv_pitch)
      (vo + Int.tdiv (Int.tdiv ((y : Int) * h) sh) 2 * uv_pitch) sw
  else
    ScaleYV12ToRGB32Row ybuf ubuf vbuf
      (yo + Int.tdiv ((y : Int) * h) sh * y_pitch)
      (uo + Int.tdiv (Int.tdiv ((y : Int) * h) sh) 2 * uv_pitch)
      (vo + Int.tdiv (Int.tdiv ((y : Int) * h) sh) 2 * uv_pitch) w sw

/-- `ScaleYV12ToRGB32`: 4:2:0 frame scaler, producing the matrix of written
pixels, one inner list per destination row. -/
def ScaleYV12ToRGB32 (ybuf ubuf vbuf : List Nat) (width height scaled_width
    scaled_height y_pitch uv_pitch : Int) (view_rotate : Rotate) :
    Option (List (List Nat)) :=
  seqOpt ((List.range scaled_height.toNat).map
    (yv12RowBody ybuf ubuf vbuf
      (yStart width height y_pitch view_rotate)
      (uvStart420 width height uv_pitch view_rotate)
      (uvStart420 width height uv_pitch view_rotate)
      (effWidth width view_rotate) (effHeight height view_rotate)
      scaled_width scaled_height y_pitch uv_pitch))

/-- One iteration of the row loop of `ScaleYV16ToRGB32` (4:2:2): the chroma
row equals `scaled_y` (locals inlined as in `yv12RowBody`); there is no
identity-ratio special case. -/
def yv16RowBody (ybuf ubuf vbuf : List Nat) (yo uo vo w h sw sh y_pitch
    uv_pitch : Int) (y : Nat) : Option (List Nat) :=
  if sw = Int.tdiv w 2 then
    HalfYV12ToRGB32Row ybuf ubuf vbuf
      (yo + Int.tdiv ((y : Int) * h) sh * y_pitch)
      (uo + Int.tdiv ((y : Int) * h) sh * uv_pitch)
      (vo + Int.tdiv ((y : Int) * h) sh * uv_pitch) sw
  else
    ScaleYV12ToRGB32Row ybuf ubuf vbuf
      (yo + Int.tdiv ((y : Int) * h) sh * y_pitch)
      (uo + Int.tdiv ((y : Int) * h) sh * uv_pitch)
      (vo + Int.tdiv ((y : Int) * h) sh * uv_pitch) w sw

/-- `ScaleYV16ToRGB32`: 4:2:2 frame scaler. -/
def ScaleYV16ToRGB32 (ybuf ubuf vbuf : List Nat) (width height scaled_width
    scaled_height y_pitch uv_pitch : Int) (view_rotate : Rotate) :
    Option (List (List Nat)) :=
  seqOpt ((List.range scaled_height.toNat).map
    (yv16RowBody ybuf ubuf vbuf
      (yStart width height y_pitch view_rotate)
      (uvStart422 width height uv_pitch view_rotate)
      (uvStart422 width height uv_pitch view_rotate)
      (effWidth width view_rotate) (effHeight height view_rotate)
      scaled_width scaled_height y_pitch uv_pitch))

/-- One store `*reinterpret_cast<uint32*>(rgb_buf + o) = p` seen as four byte
writes (little endian). -/
def writePixelBytes (buf : Int → Nat) (o : Int) (p : Nat) : Int → Nat :=
  fun i =>
    if i = o then p % 256
    else if i = o + 1 then p / 256 % 256
    else if i = o + 2 then p / 65536 % 256
    else if i = o + 3 then p / 16777216 % 256
    else buf i

/-- Write one converted row at byte offset `o`, advancing `rgb_buf += 4` per
pixel. -/
def writeRowPixels : (Int → Nat) → Int → List Nat → (Int → Nat)
  | buf, _, [] => buf
  | buf, o, p :: rest => writeRowPixels (writePixelBytes buf o p) (o + 4) rest

/-- Write the converted rows: row `y` starts at `dest_pixel = rgb_buf +
y * rgb_pitch`. -/
def writeFrameRows : (Int → Nat) → Int → Int → List (List Nat) → (Int → Nat)
  | buf, _, _, [] => buf
  | buf, pitch, y, row :: rest =>
    writeFrameRows (writeRowPixels buf (y * pitch) row) pitch (y + 1) rest

/-- `ScaleYV12ToRGB32` including its effect on the destination byte buffer. -/
def ScaleYV12ToRGB32Into (ybuf ubuf vbuf : List Nat) (rgb : Int → Nat)
    (width height scaled_width scaled_height y_pitch uv_pitch rgb_pitch : Int)
    (view_rotate : Rotate) : Option (Int → Nat) :=
  (ScaleYV12ToRGB32 ybuf ubuf vbuf width height scaled_width scaled_height
      y_pitch uv_pitch view_rotate).map (writeFrameRows rgb rgb_pitch 0)

/-- Modelled from the spec (§4.1), for comparison with the code: the specified
contract of the saturation table is `clamp(round(v/256), 0, 255)` where
`v/256` is the true value of the 8.8 fixed-point input and `round` is
round-to-nearest (half away from zero for nonnegative values). -/
def clipSpecRound (v : Int) : Int :=
  max 0 (min 255 (Int.fdiv (v + 128) 256))

/-- The clamp the table actually realizes on its covered range (see C7). -/
def clipModel (v : Int) : Nat :=
  (max 0 (min 255 (asr v 8))).toNat

/-- Byte `b` (little endian) of a stored 32-bit pixel value. -/
def pixelByte (p b : Nat) : Nat := p / 256 ^ b % 256

/-! ### Basic lemmas about the embedding -/

theorem asr_eq_ediv (v : Int) (n : Nat) : asr v n = v / 2 ^ n :=
  Int.fdiv_eq_ediv v (le_of_lt (pow_pos (by norm_num) n))

theorem readU8_eq_getD {buf : List Nat} {i : Int} (h0 : 0 ≤ i)
    (h1 : i.toNat < buf.length) : readU8 buf i = some (buf.getD i.toNat 0) := by
  simp [readU8, h0, List.getElem?_eq_getElem h1]

theorem seqOpt_cons {α : Type} (o : Option α) (rest : List (Option α)) :
    seqOpt (o :: rest) =
      o.bind fun a => (seqOpt rest).bind fun l => some (a :: l) := rfl

theorem seqOpt_length {α : Type} (l : List (Option α)) :
    ∀ out, seqOpt l = some out → out.length = l.length := by
  induction l with
  | nil =>
    intro out h
    simp [seqOpt] at h
    simp [← h]
  | cons o rest ih =>
    intro out h
    rw [seqOpt_cons] at h
    rcases Option.bind_eq_some.mp h with ⟨a, ha, h2⟩
    rcases Option.bind_eq_some.mp h2 with ⟨l2, hl2, h3⟩
    have hout : a :: l2 = out := Option.some.inj h3
    subst hout
    simp [ih l2 hl2]

theorem seqOpt_getElem? {α : Type} (l : List (Option α)) :
    ∀ out, seqOpt l = some out → ∀ i : Nat, out[i]? = (l[i]?).join := by
  induction l with
  | nil =>
    intro out h i
    simp [seqOpt] at h
    subst h
    simp
  | cons o rest ih =>
    intro out h i
    rw [seqOpt_cons] at h
    rcases Option.bind_eq_some.mp h with ⟨a, ha, h2⟩
    rcases Option.bind_eq_some.mp h2 with ⟨l2, hl2, h3⟩
    have hout : a :: l2 = out := Option.some.inj h3
    subst hout
    cases i with
    | zero => simp [ha]
    | succ j => simpa using ih l2 hl2 j

theorem collect_eq (f : Nat → Option Nat) :
    ∀ (n i : Nat), collect f n i =
      seqOpt ((List.range n).map fun k => f (i + k)) := by
  intro n
  induction n with
  | zero => intro i; rfl
  | succ m ih =>
    intro i
    rw [List.range_succ_eq_map, List.map_cons, List.map_map, seqOpt_cons]
    have h1 : ((fun k => f (i + k)) ∘ Nat.succ) = fun k => f (i + 1 + k) := by
      funext k
      exact congrArg f (by omega)
    rw [h1, ← ih (i + 1), Nat.add_zero]
    rfl

theorem scaleRowAux_eq (ybuf ubuf vbuf : List Nat) (yo uo vo dx : Int) :
    ∀ (n : Nat) (sx : Int), scaleRowAux ybuf ubuf vbuf yo uo vo dx n sx =
      seqOpt ((List.range n).map fun k : Nat =>
        scalePixelAt ybuf ubuf vbuf yo uo vo (sx + (k : Int) * dx)) := by
  intro n
  induction n with
  | zero => intro sx; rfl
  | succ m ih =>
    intro sx
    rw [List.range_succ_eq_map, List.map_cons, List.map_map, seqOpt_cons]
    have h1 : ((fun k : Nat =>
        scalePixelAt ybuf ubuf vbuf yo uo vo (sx + (k : Int) * dx)) ∘ Nat.succ)
        = fun k : Nat =>
          scalePixelAt ybuf ubuf vbuf yo uo vo ((sx + dx) + (k : Int) * dx) := by
      funext k
      exact congrArg (scalePixelAt ybuf ubuf vbuf yo uo vo) (by push_cast; ring)
    rw [h1, ← ih (sx + dx)]
    simp only [Nat.cast_zero, zero_mul, add_zero]
    rfl

theorem collect_length (f : Nat → Option Nat) (n i : Nat) (out : List Nat)
    (h : collect f n i = some out) : out.length = n := by
  rw [collect_eq] at h
  simpa using seqOpt_length _ _ h

theorem scaleRowAux_length (ybuf ubuf vbuf : List Nat) (yo uo vo dx : Int)
    (n : Nat) (sx : Int) (out : List Nat)
    (h : scaleRowAux ybuf ubuf vbuf yo uo vo dx n sx = some out) :
    out.length = n := by
  rw [scaleRowAux_eq] at h
  simpa using seqOpt_length _ _ h

theorem g_rgb_clip_table_length : g_rgb_clip_table.length = 512 := by decide

theorem g_rgb_clip_table_getD :
    ∀ j : Nat, j < 512 → g_rgb_clip_table.getD j 0 = min 255 (j - 128) := by
  decide

theorem g_rgb_clip_table_lt : ∀ x ∈ g_rgb_clip_table, x < 256 := by decide

theorem clip_lt_256 {v : Int} {b : Nat} (h : clip v = some b) : b < 256 := by
  have hmem : b ∈ g_rgb_clip_table := by
    unfold clip readU8 at h
    split at h
    · exact List.getElem?_mem h
    · exact absurd h (by simp)
  exact g_rgb_clip_table_lt b hmem

/-! ### C7: the clip contract -/

/-- Claim C7 (amended): for every 8.8 fixed-point value in the table's covered
range [-128*256, 384*256), `clip v` equals `clamp(floor(v/256), 0, 255)` — the
flooring arithmetic-shift quotient, not round-to-nearest as the spec words
say. -/
theorem C7_clip_eq_clamped_floor (v : Int) (h1 : -(128 * 256) ≤ v)
    (h2 : v < 384 * 256) : clip v = some (clipModel v) := by
  have hq : asr v 8 = v / 256 := by rw [asr_eq_ediv]; norm_num
  have hlo : (-128 : Int) ≤ v / 256 := by
    have h := Int.ediv_le_ediv (by norm_num : (0 : Int) < 256) h1
    have e : (-(128 * 256) : Int) / 256 = -128 := by decide
    rw [e] at h
    exact h
  have hhi : v / 256 ≤ 383 := by
    have hv : v ≤ 383 * 256 + 255 := by omega
    have h := Int.ediv_le_ediv (by norm_num : (0 : Int) < 256) hv
    have e : ((383 * 256 + 255 : Int)) / 256 = 383 := by decide
    rw [e] at h
    exact h
  have h0 : 0 ≤ clipIndex v := by
    simp only [clipIndex, kClipOverflow, hq]
    omega
  have hlt : (clipIndex v).toNat < g_rgb_clip_table.length := by
    rw [g_rgb_clip_table_length]
    simp only [clipIndex, kClipOverflow, hq]
    omega
  rw [clip, readU8_eq_getD h0 hlt, g_rgb_clip_table_getD _ (by
    rw [← g_rgb_clip_table_length]
    exact hlt)]
  congr 1
  simp only [clipIndex, kClipOverflow, clipModel, hq]
  omega

/-- Claim C7 as stated is false at `v = 384`: the true value is 1.5, whose
rounding to nearest is 2, but `clip 384 = some 1` (the shift floors). -/
theorem C7_cx_round_contract_fails :
    ¬ clip 384 = some (clipSpecRound 384).toNat := by decide

/-- Witness for `C7_clip_eq_clamped_floor` at `v = 300`. -/
theorem C7_witness :
    -(128 * 256) ≤ (300 : Int) ∧ (300 : Int) < 384 * 256 ∧
      clip 300 = some (clipModel 300) :=
  ⟨by decide, by decide, C7_clip_eq_clamped_floor 300 (by decide) (by decide)⟩

/-! ### C2: the clip table index can leave the table -/

/-- Claim C2 is false of the code: at Y = 255, U = 255 the blue-channel clip
argument is 137010, whose table index 663 lies outside the 512-entry table,
so the lookup is an out-of-bounds read (modelled as `none`); the row
converter hits it, e.g. `HalfYV12ToRGB32Row` on the one-pixel row
Y = [255,255], U = [255], V = [128]. -/
theorem C2_clip_index_overflows :
    ((255 : Int) - 16) * 298 + 128 + (516 * ((255 : Int) - 128) + 128) =
      137010 ∧
    clipIndex 137010 = 663 ∧
    ¬ clipIndex 137010 < 512 ∧
    clip 137010 = none ∧
    yuvToPixel 255 255 128 = none ∧
    HalfYV12ToRGB32Row [255, 255] [255] [128] 0 0 0 1 = none := by decide

/-! ### C1: unimplemented rotations are not rejected -/

/-- Claim C1 is false of the code: with ROTATE_90 (and ROTATE_270) both frame
scalers run the conversion to completion and produce an output buffer — the
only check is a debug-only DCHECK compiled out in release, and the functions
return `void`, so no error is reported. -/
theorem C1_unimplemented_rotation_not_rejected :
    (ScaleYV12ToRGB32 [16, 32, 48, 64] [128] [128] 2 2 1 2 2 1
      ROTATE_90).isSome = true ∧
    (ScaleYV16ToRGB32 [16, 32, 48, 64, 77] [128, 129] [128, 129] 2 2 1 2 2 1
      ROTATE_270).isSome = true := by decide

/-! ### C3, C4, C8: counterexamples -/

/-- Claim C3 as stated is false: on the two-pixel row Y = [0, 255] with
neutral chroma, the half converter blends the luma pair (blue channel 130)
while the general converter at the same 2:1 ratio has step 32, zero
fractional bits, and samples only y[0] (blue channel 0): the channels differ
by 130, far beyond the claimed tolerance of 2. -/
theorem C3_cx_half_differs_beyond_tolerance :
    HalfYV12ToRGB32Row [0, 255] [128] [128] 0 0 0 1 = some [4286743170] ∧
    ScaleYV12ToRGB32Row [0, 255] [128] [128] 0 0 0 2 1 =
      some [4278190080] ∧
    4286743170 % 256 = 130 ∧ 4278190080 % 256 = 0 ∧
    ¬ (4286743170 % 256 ≤ 4278190080 % 256 + 2) := by decide

/-- Claim C8 as stated is false at `scaled_width = width`: with width 1 the
last (only) destination column computes next-sample luma index
`(0 * (1*16/1)) >> 4 + 1 = 1 > width - 1`, and the converter on a 1-sample
luma row indeed fails on that read (a padded row succeeds). -/
theorem C8_cx_identity_ratio_reads_past_end :
    ScaleYV12ToRGB32Row [7] [128] [128] 0 0 0 1 1 = none ∧
    ScaleYV12ToRGB32Row [7, 9] [128] [128] 0 0 0 1 1 =
      ScaleYV12ToRGB32Row [7, 0] [128] [128] 0 0 0 1 1 ∧
    asr (0 * Int.tdiv (1 * 16) 1) 4 + 1 = 1 ∧ ¬ ((1 : Int) ≤ 1 - 1) := by
  decide

/-- Claim C4 as stated is false: for the 2x2 frame below scaled to 1x2
(luma pitch 3, one pad byte per row), the 180-degree output differs from the
row-and-column reversal of the 0-degree output: the 0-degree pass uses the
half converter (luma pairs averaged) while the mirrored pass runs the
general converter, which samples a single luma per pixel, and truncating
division picks different chroma/luma pairings. -/
theorem C4_cx_rot180_not_reverse_of_rot0 :
    ScaleYV12ToRGB32 [0, 255, 0, 10, 20, 0] [128] [128] 2 2 1 2 3 1
        ROTATE_180 = some [[4278519045], [4294967295]] ∧
    (ScaleYV12ToRGB32 [0, 255, 0, 10, 20, 0] [128] [128] 2 2 1 2 3 1
        ROTATE_0).map (fun rows => (rows.map List.reverse).reverse) =
      some [[4278190080], [4286743170]] ∧
    ¬ ([[4278519045], [4294967295]] : List (List Nat)) =
        [[4278190080], [4286743170]] := by decide

/-! ### Row converter characterizations -/

theorem ScaleYV12ToRGB32Row_length (ybuf ubuf vbuf : List Nat)
    (yo uo vo w sw : Int) (out : List Nat)
    (h : ScaleYV12ToRGB32Row ybuf ubuf vbuf yo uo vo w sw = some out) :
    out.length = sw.toNat := by
  unfold ScaleYV12ToRGB32Row at h
  split at h
  · exact absurd h (by simp)
  · exact scaleRowAux_length _ _ _ _ _ _ _ _ _ _ h

theorem HalfYV12ToRGB32Row_length (ybuf ubuf vbuf : List Nat)
    (yo uo vo width : Int) (out : List Nat)
    (h : HalfYV12ToRGB32Row ybuf ubuf vbuf yo uo vo width = some out) :
    out.length = width.toNat := by
  unfold HalfYV12ToRGB32Row at h
  exact collect_length _ _ _ _ h

theorem ConvertYV12ToRGB32Row_length (ybuf ubuf vbuf : List Nat)
    (yo uo vo width : Int) (out : List Nat)
    (h : ConvertYV12ToRGB32Row ybuf ubuf vbuf yo uo vo width = some out) :
    out.length = width.toNat := by
  unfold ConvertYV12ToRGB32Row at h
  exact collect_length _ _ _ _ h

theorem ScaleYV12ToRGB32Row_getElem? (ybuf ubuf vbuf : List Nat)
    (yo uo vo w sw : Int) (out : List Nat)
    (h : ScaleYV12ToRGB32Row ybuf ubuf vbuf yo uo vo w sw = some out)
    (x : Nat) (hx : x < sw.toNat) :
    out[x]? = scalePixelAt ybuf ubuf vbuf yo uo vo
      ((x : Int) * Int.tdiv (w * 16) sw) := by
  unfold ScaleYV12ToRGB32Row at h
  split at h
  · exact absurd h (by simp)
  · rw [scaleRowAux_eq] at h
    rw [seqOpt_getElem? _ _ h x, List.getElem?_map, List.getElem?_range hx]
    simp

theorem HalfYV12ToRGB32Row_getElem? (ybuf ubuf vbuf : List Nat)
    (yo uo vo width : Int) (out : List Nat)
    (h : HalfYV12ToRGB32Row ybuf ubuf vbuf yo uo vo width = some out)
    (x : Nat) (hx : x < width.toNat) :
    out[x]? = halfPixelAt ybuf ubuf vbuf yo uo vo x := by
  unfold HalfYV12ToRGB32Row at h
  rw [collect_eq] at h
  rw [seqOpt_getElem? _ _ h x, List.getElem?_map, List.getElem?_range hx]
  simp

/-! ### Bit packing -/

theorem lor_eq_add_of_lt {a c : Nat} (k : Nat) (ha : a < 2 ^ k)
    (hc : c % 2 ^ k = 0) : a ||| c = a + c := by
  obtain ⟨m, rfl⟩ : 2 ^ k ∣ c := Nat.dvd_of_mod_eq_zero hc
  apply Nat.eq_of_testBit_eq
  intro j
  rw [Nat.testBit_or, Nat.add_comm, Nat.testBit_mul_pow_two_add _ ha,
    Nat.testBit_mul_pow_two]
  rcases Nat.lt_or_ge j k with hj | hj
  · rw [if_pos hj]
    simp [Nat.not_le_of_lt hj]
  · rw [if_neg (Nat.not_lt_of_le hj)]
    have hfb : a.testBit j = false :=
      Nat.testBit_lt_two_pow
        (Nat.lt_of_lt_of_le ha (Nat.pow_le_pow_right (by norm_num) hj))
    simp [hfb, hj]

theorem pack_bytes {b g r : Nat} (hb : b < 256) (hg : g < 256) (hr : r < 256) :
    b ||| (g <<< 8) ||| (r <<< 16) ||| 0xff000000 =
      b + g * 256 + r * 65536 + 255 * 16777216 := by
  have h1 : b ||| (g <<< 8) = b + g * 2 ^ 8 := by
    rw [Nat.shiftLeft_eq]
    exact lor_eq_add_of_lt 8 (by omega) (Nat.mul_mod_left g (2 ^ 8))
  have h2 : (b + g * 2 ^ 8) ||| (r <<< 16) = b + g * 2 ^ 8 + r * 2 ^ 16 := by
    rw [Nat.shiftLeft_eq]
    exact lor_eq_add_of_lt 16 (by omega) (Nat.mul_mod_left r (2 ^ 16))
  have h3 : (b + g * 2 ^ 8 + r * 2 ^ 16) ||| 0xff000000 =
      b + g * 2 ^ 8 + r * 2 ^ 16 + 0xff000000 := by
    exact lor_eq_add_of_lt 24 (by omega) (by norm_num)
  rw [h1, h2, h3]
  norm_num

/-- Destructure a successful pixel: the three clip lookups succeeded on the
claimed channel arguments, and the result is their packing. -/
theorem yuvToPixel_bytes {L u v p : Nat} (h : yuvToPixel L u v = some p) :
    ∃ b g r,
      clip (((L : Int) - 16) * 298 + 128 +
        (516 * ((u : Int) - 128) + 128)) = some b ∧
      clip (((L : Int) - 16) * 298 + 128 +
        (-100 * ((u : Int) - 128) - 208 * ((v : Int) - 128) + 128)) = some g ∧
      clip (((L : Int) - 16) * 298 + 128 +
        (409 * ((v : Int) - 128) + 128)) = some r ∧
      p = b ||| (g <<< 8) ||| (r <<< 16) ||| 0xff000000 ∧
      p % 256 = b ∧ p / 256 % 256 = g ∧ p / 65536 % 256 = r ∧
      p / 16777216 = 255 := by
  simp only [yuvToPixel, bind, Option.bind] at h
  rcases hb : clip (((L : Int) - 16) * 298 + 128 +
      (516 * ((u : Int) - 128) + 128)) with _ | b
  · rw [hb] at h
    exact absurd h (by simp)
  rw [hb] at h
  rcases hg : clip (((L : Int) - 16) * 298 + 128 +
      (-100 * ((u : Int) - 128) - 208 * ((v : Int) - 128) + 128)) with _ | g
  · rw [hg] at h
    exact absurd h (by simp)
  rw [hg] at h
  rcases hr : clip (((L : Int) - 16) * 298 + 128 +
      (409 * ((v : Int) - 128) + 128)) with _ | r
  · rw [hr] at h
    exact absurd h (by simp)
  rw [hr] at h
  have hp : b ||| (g <<< 8) ||| (r <<< 16) ||| 0xff000000 = p :=
    Option.some.inj h
  have hb2 := clip_lt_256 hb
  have hg2 := clip_lt_256 hg
  have hr2 := clip_lt_256 hr
  refine ⟨b, g, r, rfl, rfl, rfl, hp.symm, ?_, ?_, ?_, ?_⟩ <;>
    · rw [← hp, pack_bytes hb2 hg2 hr2]
      omega

theorem scalePixelAt_some {ybuf ubuf vbuf : List Nat} {yo uo vo sx : Int}
    {p : Nat} (h : scalePixelAt ybuf ubuf vbuf yo uo vo sx = some p) :
    ∃ L u v, yuvToPixel L u v = some p := by
  unfold scalePixelAt at h
  rcases Option.bind_eq_some.mp h with ⟨u, hu, h⟩
  rcases Option.bind_eq_some.mp h with ⟨v, hv, h⟩
  rcases Option.bind_eq_some.mp h with ⟨y0, hy0, h⟩
  rcases Option.bind_eq_some.mp h with ⟨y1, hy1, h⟩
  exact ⟨blendLuma y0 y1 (interpPattern sx), u, v, h⟩

theorem halfPixelAt_some {ybuf ubuf vbuf : List Nat} {yo uo vo : Int}
    {x p : Nat} (h : halfPixelAt ybuf ubuf vbuf yo uo vo x = some p) :
    ∃ L u v, yuvToPixel L u v = some p := by
  unfold halfPixelAt at h
  rcases Option.bind_eq_some.mp h with ⟨u, hu, h⟩
  rcases Option.bind_eq_some.mp h with ⟨v, hv, h⟩
  rcases Option.bind_eq_some.mp h with ⟨y0, hy0, h⟩
  rcases Option.bind_eq_some.mp h with ⟨y1, hy1, h⟩
  exact ⟨(y0 + y1) >>> 1, u, v, h⟩

/-! ### C6: general row converter sampling -/

/-- Claim C6: in the general-ratio row converter, the fixed-point source
position of destination column `x` is `x * (width * 16 / scaled_width)`; the
chroma samples are read at `position >> 5`, the luma samples at
`position >> 4` and `position >> 4 + 1`, blended by `blendLuma` according to
the pattern `(position & 15) >> 2` (100/0, 75/25, 50/50, 25/75 in integer
arithmetic). -/
theorem C6_general_row_sampling (ybuf ubuf vbuf : List Nat)
    (yo uo vo w sw : Int) (out : List Nat)
    (h : ScaleYV12ToRGB32Row ybuf ubuf vbuf yo uo vo w sw = some out)
    (x : Nat) (hx : x < sw.toNat) :
    out[x]? = (do
      let u ← readU8 ubuf (uo + asr ((x : Int) * Int.tdiv (w * 16) sw) 5)
      let v ← readU8 vbuf (vo + asr ((x : Int) * Int.tdiv (w * 16) sw) 5)
      let y0 ← readU8 ybuf (yo + asr ((x : Int) * Int.tdiv (w * 16) sw) 4)
      let y1 ← readU8 ybuf (yo + asr ((x : Int) * Int.tdiv (w * 16) sw) 4 + 1)
      yuvToPixel (blendLuma y0 y1
        (((x : Int) * Int.tdiv (w * 16) sw) % 16 / 4)) u v) := by
  rw [ScaleYV12ToRGB32Row_getElem? ybuf ubuf vbuf yo uo vo w sw out h x hx]
  rfl

/-- Witness for `C6_general_row_sampling`: the 3-to-2 row with
Y = [10, 20, 30], column 1 (position 24, pattern 2: 50/50 blend). -/
theorem C6_witness :
    ([4278190080, 4278913803] : List Nat)[1]? = (do
      let u ← readU8 [128] (0 + asr (((1 : Nat) : Int) * Int.tdiv (3 * 16) 2) 5)
      let v ← readU8 [128] (0 + asr (((1 : Nat) : Int) * Int.tdiv (3 * 16) 2) 5)
      let y0 ← readU8 [10, 20, 30]
        (0 + asr (((1 : Nat) : Int) * Int.tdiv (3 * 16) 2) 4)
      let y1 ← readU8 [10, 20, 30]
        (0 + asr (((1 : Nat) : Int) * Int.tdiv (3 * 16) 2) 4 + 1)
      yuvToPixel (blendLuma y0 y1
        ((((1 : Nat) : Int) * Int.tdiv (3 * 16) 2) % 16 / 4)) u v) :=
  C6_general_row_sampling [10, 20, 30] [128] [128] 0 0 0 3 2
    [4278190080, 4278913803] (by decide) 1 (by decide)

/-! ### C5: per-pixel color transform and packing -/

/-- Claim C5: every pixel produced by either row converter is built from some
luma value L and chroma samples u, v by the 8.8 fixed-point transform
`cb = 516 d + 128`, `cg = -100 d - 208 e + 128`, `cr = 409 e + 128`
(`d = u - 128`, `e = v - 128`), `C298a = (L - 16) * 298 + 128`, with the
clipped blue channel in bits 0-7, green in 8-15, red in 16-23, and the alpha
byte (bits 24-31) always 255. -/
theorem C5_pixel_formula_and_packing (ybuf ubuf vbuf : List Nat)
    (yo uo vo w sw : Int) (out : List Nat) (x p : Nat)
    (hrow : ScaleYV12ToRGB32Row ybuf ubuf vbuf yo uo vo w sw = some out ∨
      HalfYV12ToRGB32Row ybuf ubuf vbuf yo uo vo w = some out)
    (hp : out[x]? = some p) :
    ∃ L u v b g r,
      clip (((L : Int) - 16) * 298 + 128 +
        (516 * ((u : Int) - 128) + 128)) = some b ∧
      clip (((L : Int) - 16) * 298 + 128 +
        (-100 * ((u : Int) - 128) - 208 * ((v : Int) - 128) + 128)) = some g ∧
      clip (((L : Int) - 16) * 298 + 128 +
        (409 * ((v : Int) - 128) + 128)) = some r ∧
      p = b ||| (g <<< 8) ||| (r <<< 16) ||| 0xff000000 ∧
      p % 256 = b ∧ p / 256 % 256 = g ∧ p / 65536 % 256 = r ∧
      p / 16777216 = 255 := by
  have hxlen : x < out.length := by
    rcases List.getElem?_eq_some.mp hp with ⟨hl, _⟩
    exact hl
  rcases hrow with hrow | hrow
  · have hx : x < sw.toNat := by
      rw [← ScaleYV12ToRGB32Row_length _ _ _ _ _ _ _ _ _ hrow]
      exact hxlen
    have hc := ScaleYV12ToRGB32Row_getElem? _ _ _ _ _ _ _ _ _ hrow x hx
    rw [hp] at hc
    obtain ⟨L, u, v, hyv⟩ := scalePixelAt_some hc.symm
    obtain ⟨b, g, r, c1, c2, c3, c4, c5, c6, c7, c8⟩ := yuvToPixel_bytes hyv
    exact ⟨L, u, v, b, g, r, c1, c2, c3, c4, c5, c6, c7, c8⟩
  · have hx : x < w.toNat := by
      rw [← HalfYV12ToRGB32Row_length _ _ _ _ _ _ _ _ hrow]
      exact hxlen
    have hc := HalfYV12ToRGB32Row_getElem? _ _ _ _ _ _ _ _ hrow x hx
    rw [hp] at hc
    obtain ⟨L, u, v, hyv⟩ := halfPixelAt_some hc.symm
    obtain ⟨b, g, r, c1, c2, c3, c4, c5, c6, c7, c8⟩ := yuvToPixel_bytes hyv
    exact ⟨L, u, v, b, g, r, c1, c2, c3, c4, c5, c6, c7, c8⟩

/-- Witness for `C5_pixel_formula_and_packing`: pixel 0 of the 3-to-2 scaled
row with Y = [10, 20, 30] and neutral chroma. -/
theorem C5_witness :
    ∃ L u v b g r,
      clip (((L : Int) - 16) * 298 + 128 +
        (516 * ((u : Int) - 128) + 128)) = some b ∧
      clip (((L : Int) - 16) * 298 + 128 +
        (-100 * ((u : Int) - 128) - 208 * ((v : Int) - 128) + 128)) = some g ∧
      clip (((L : Int) - 16) * 298 + 128 +
        (409 * ((v : Int) - 128) + 128)) = some r ∧
      4278190080 = b ||| (g <<< 8) ||| (r <<< 16) ||| 0xff000000 ∧
      4278190080 % 256 = b ∧ 4278190080 / 256 % 256 = g ∧
      4278190080 / 65536 % 256 = r ∧ 4278190080 / 16777216 = 255 :=
  C5_pixel_formula_and_packing [10, 20, 30] [128] [128] 0 0 0 3 2
    [4278190080, 4278913803] 0 4278190080 (Or.inl (by decide)) (by decide)

theorem readU8_natCast (buf : List Nat) (i : Nat) :
    readU8 buf (i : Int) = buf[i]? := by
  simp [readU8]

/-- One pixel of the half converter equals one pixel of the general converter
at step 32 (position `32 k`) when the two luma samples of the pair are
equal: the general converter has pattern 0 and takes `y[2k]` alone, the half
converter averages the equal pair. -/
theorem half_pixel_eq_scale_pixel (ybuf ubuf vbuf : List Nat) (k : Nat)
    (hEq : ybuf[2 * k]? = ybuf[2 * k + 1]?) :
    halfPixelAt ybuf ubuf vbuf 0 0 0 k =
      scalePixelAt ybuf ubuf vbuf 0 0 0 ((k : Int) * 32) := by
  have e5 : asr ((k : Int) * 32) 5 = (k : Int) := by
    have : ((k : Int) * 32) = (k : Int) * 2 ^ 5 := by norm_num
    rw [this, asr, Int.mul_fdiv_cancel _ (by norm_num)]
  have e4 : asr ((k : Int) * 32) 4 = ((2 * k : Nat) : Int) := by
    have : ((k : Int) * 32) = ((2 * k : Nat) : Int) * 2 ^ 4 := by
      push_cast
      ring
    rw [this, asr, Int.mul_fdiv_cancel _ (by norm_num)]
  have epat : interpPattern ((k : Int) * 32) = 0 := by
    have : ((k : Int) * 32) = 16 * ((k : Int) * 2) := by ring
    rw [interpPattern, this, Int.mul_emod_right]
    rfl
  have ey0 : (k : Int) * 2 = ((2 * k : Nat) : Int) := by
    push_cast
    ring
  have ey1 : ((2 * k : Nat) : Int) + 1 = ((2 * k + 1 : Nat) : Int) := by
    push_cast
    ring
  unfold halfPixelAt scalePixelAt
  simp only [e5, e4, epat, zero_add, ey0, ey1, readU8_natCast]
  rcases h1 : ubuf[k]? with _ | u
  · rfl
  rcases h2 : vbuf[k]? with _ | v
  · rfl
  rcases h3 : ybuf[2 * k]? with _ | a
  · rw [← hEq, h3]
    rfl
  rw [← hEq, h3]
  have hblend : (a + a) >>> 1 = a := by
    rw [Nat.shiftRight_eq_div_pow]
    omega
  have hb0 : blendLuma a a 0 = a := rfl
  simp [hblend, hb0]

/-- Claim C3 (amended): for an even source width `2n` scaled to `n`, the half
converter and the general converter agree exactly — not merely within a
tolerance of 2 — whenever each horizontally adjacent luma pair is equal
(`y[2i] = y[2i+1]`); with unequal pairs the channels may differ by far more
than 2 (`C3_cx_half_differs_beyond_tolerance`), because the general
converter's step 32 has no fractional bits: it samples `y[2i]` alone where
the half converter averages the pair. -/
theorem C3_half_eq_general_on_equal_pairs (ybuf ubuf vbuf : List Nat)
    (n : Nat) (hn : 0 < n)
    (hpairs : ∀ i : Nat, i < n → ybuf[2 * i]? = ybuf[2 * i + 1]?) :
    HalfYV12ToRGB32Row ybuf ubuf vbuf 0 0 0 (n : Int) =
      ScaleYV12ToRGB32Row ybuf ubuf vbuf 0 0 0 (2 * (n : Int)) (n : Int) := by
  unfold ScaleYV12ToRGB32Row HalfYV12ToRGB32Row
  rw [if_neg (by omega : ¬(n : Int) = 0)]
  have hdx : Int.tdiv ((2 * (n : Int)) * 16) (n : Int) = 32 := by
    have e : (2 * (n : Int)) * 16 = 32 * (n : Int) := by ring
    rw [e, Int.mul_tdiv_cancel _ (by omega)]
  rw [hdx, scaleRowAux_eq, collect_eq, Int.toNat_natCast]
  congr 1
  apply List.map_congr_left
  intro k hk
  have hkn : k < n := List.mem_range.mp hk
  rw [Nat.zero_add, zero_add]
  exact half_pixel_eq_scale_pixel ybuf ubuf vbuf k (hpairs k hkn)

/-- Witness for `C3_half_eq_general_on_equal_pairs`: width 4 to 2 with the
pairwise-equal luma row [10, 10, 30, 30]. -/
theorem C3_witness :
    HalfYV12ToRGB32Row [10, 10, 30, 30] [90, 200] [1, 2] 0 0 0
        ((2 : Nat) : Int) =
      ScaleYV12ToRGB32Row [10, 10, 30, 30] [90, 200] [1, 2] 0 0 0
        (2 * ((2 : Nat) : Int)) ((2 : Nat) : Int) :=
  C3_half_eq_general_on_equal_pairs [10, 10, 30, 30] [90, 200] [1, 2] 2
    (by decide) (by decide)

/-- Index arithmetic for C8: with `0 < scaled_width < width`, for every
destination column the next-sample luma index stays at most `width - 1`. -/
theorem scale_luma_index_bound (w sw : Int) (h0 : 0 < sw) (h1 : sw < w)
    (x : Nat) (hx : x < sw.toNat) :
    0 ≤ asr ((x : Int) * Int.tdiv (w * 16) sw) 4 ∧
    asr ((x : Int) * Int.tdiv (w * 16) sw) 4 + 1 ≤ w - 1 := by
  have hw : 0 < w := lt_trans h0 h1
  have hdxe : Int.tdiv (w * 16) sw = (w * 16) / sw :=
    Int.tdiv_eq_ediv (by positivity) (le_of_lt h0)
  set dx := Int.tdiv (w * 16) sw with hdx
  have hdx16 : 16 ≤ dx := by
    rw [hdxe, Int.le_ediv_iff_mul_le h0]
    omega
  have hub : dx * sw ≤ w * 16 := by
    rw [hdxe]
    exact Int.ediv_mul_le _ (by omega)
  have hxsw : (x : Int) < sw := by omega
  have hxdx : (x : Int) * dx ≤ w * 16 - dx := by
    have ha : (x : Int) * dx ≤ (sw - 1) * dx :=
      mul_le_mul_of_nonneg_right (by omega) (by omega)
    have hb : (sw - 1) * dx = dx * sw - dx := by ring
    linarith
  have hnonneg : 0 ≤ (x : Int) * dx := mul_nonneg (by positivity) (by omega)
  constructor
  · rw [asr_eq_ediv]
    exact Int.ediv_nonneg hnonneg (by norm_num)
  · rcases eq_or_lt_of_le hdx16 with he | hgt
    · have e : (x : Int) * dx = (x : Int) * 2 ^ 4 := by
        rw [← he]
        norm_num
      rw [e, asr, Int.mul_fdiv_cancel _ (by norm_num)]
      omega
    · have hb : (x : Int) * dx ≤ w * 16 - 17 := by linarith
      have hmono : asr ((x : Int) * dx) 4 ≤ (w * 16 - 17) / 2 ^ 4 := by
        rw [asr_eq_ediv]
        exact Int.ediv_le_ediv (by norm_num) hb
      have e : (w * 16 - 17 : Int) / 2 ^ 4 = w - 2 := by
        have e2 : (w * 16 - 17 : Int) = 15 + (w - 2) * 2 ^ 4 := by ring
        rw [e2, Int.add_mul_ediv_right _ _ (by norm_num)]
        norm_num
      omega

/-- Claim C8 (amended): for `0 < scaled_width < width` (strictly), the
general row converter never reads a luma sample beyond `width - 1`: its
output depends only on the luma window `[yo, yo + width)`, and every
next-sample index `(scaled_x >> 4) + 1` is at most `width - 1`.  At
`scaled_width = width` the claim fails: the last column's next-sample index
equals `width` (`C8_cx_identity_ratio_reads_past_end`). -/
theorem C8_general_row_reads_within_row (ybuf ybuf2 ubuf vbuf : List Nat)
    (yo uo vo w sw : Int) (h0 : 0 < sw) (h1 : sw < w)
    (hagree : ∀ j : Int, yo ≤ j → j < yo + w → readU8 ybuf j = readU8 ybuf2 j) :
    (ScaleYV12ToRGB32Row ybuf ubuf vbuf yo uo vo w sw =
      ScaleYV12ToRGB32Row ybuf2 ubuf vbuf yo uo vo w sw) ∧
    ∀ x : Nat, x < sw.toNat →
      asr ((x : Int) * Int.tdiv (w * 16) sw) 4 + 1 ≤ w - 1 := by
  constructor
  · unfold ScaleYV12ToRGB32Row
    rw [if_neg (by omega), if_neg (by omega), scaleRowAux_eq, scaleRowAux_eq]
    congr 1
    apply List.map_congr_left
    intro k hk
    have hkn : k < sw.toNat := List.mem_range.mp hk
    obtain ⟨hnn, hidx⟩ := scale_luma_index_bound w sw h0 h1 k hkn
    unfold scalePixelAt
    simp only [zero_add]
    rw [hagree (yo + asr ((k : Int) * Int.tdiv (w * 16) sw) 4)
        (by omega) (by omega),
      hagree (yo + asr ((k : Int) * Int.tdiv (w * 16) sw) 4 + 1)
        (by omega) (by omega)]
  · intro x hx
    exact (scale_luma_index_bound w sw h0 h1 x hx).2

/-- Witness for `C8_general_row_reads_within_row`: width 2 to 1, two luma
buffers that agree on the row window [0, 2) and differ behind it. -/
theorem C8_witness :
    (ScaleYV12ToRGB32Row [1, 2, 9] [128] [128] 0 0 0 2 1 =
      ScaleYV12ToRGB32Row [1, 2, 7] [128] [128] 0 0 0 2 1) ∧
    ∀ x : Nat, x < (1 : Int).toNat →
      asr ((x : Int) * Int.tdiv (2 * 16) 1) 4 + 1 ≤ 2 - 1 :=
  C8_general_row_reads_within_row [1, 2, 9] [1, 2, 7] [128] [128] 0 0 0 2 1
    (by decide) (by decide)
    (by
      intro j hj1 hj2
      interval_cases j <;> rfl)

/-! ### C9: vertical nearest-neighbor row selection -/

/-- Claim C9: at 0 degrees, for destination row `y` the 4:2:0 scaler converts
luma source row `floor(y * height / scaled_height)` (nearest neighbor, no
vertical blending) with chroma row the floor half of it, and the 4:2:2
scaler uses the same luma row with an equal chroma row; `/` below is the
flooring `Int` division, which the nonnegative operands make equal to the
code's truncating division. -/
theorem C9_vertical_row_selection (ybuf ubuf vbuf y16 u16 v16 : List Nat)
    (w h sw sh yp up : Int) (rows12 rows16 : List (List Nat)) (y : Nat)
    (h12 : ScaleYV12ToRGB32 ybuf ubuf vbuf w h sw sh yp up ROTATE_0 =
      some rows12)
    (h16 : ScaleYV16ToRGB32 y16 u16 v16 w h sw sh yp up ROTATE_0 =
      some rows16)
    (hy : (y : Int) < sh) (hh : 0 ≤ h) :
    rows12[y]? =
      (if sw = w then
        ConvertYV12ToRGB32Row ybuf ubuf vbuf ((y : Int) * h / sh * yp)
          ((y : Int) * h / sh / 2 * up) ((y : Int) * h / sh / 2 * up) sw
      else if sw = Int.tdiv w 2 then
        HalfYV12ToRGB32Row ybuf ubuf vbuf ((y : Int) * h / sh * yp)
          ((y : Int) * h / sh / 2 * up) ((y : Int) * h / sh / 2 * up) sw
      else
        ScaleYV12ToRGB32Row ybuf ubuf vbuf ((y : Int) * h / sh * yp)
          ((y : Int) * h / sh / 2 * up) ((y : Int) * h / sh / 2 * up) w sw) ∧
    rows16[y]? =
      (if sw = Int.tdiv w 2 then
        HalfYV12ToRGB32Row y16 u16 v16 ((y : Int) * h / sh * yp)
          ((y : Int) * h / sh * up) ((y : Int) * h / sh * up) sw
      else
        ScaleYV12ToRGB32Row y16 u16 v16 ((y : Int) * h / sh * yp)
          ((y : Int) * h / sh * up) ((y : Int) * h / sh * up) w sw) := by
  have hsh : 0 < sh := by omega
  have hyn : y < sh.toNat := by omega
  have htd : Int.tdiv ((y : Int) * h) sh = (y : Int) * h / sh :=
    Int.tdiv_eq_ediv (by positivity) (by omega)
  have hsy : 0 ≤ (y : Int) * h / sh := Int.ediv_nonneg (by positivity) (by omega)
  have htd2 : Int.tdiv ((y : Int) * h / sh) 2 = (y : Int) * h / sh / 2 :=
    Int.tdiv_eq_ediv hsy (by norm_num)
  constructor
  · simp only [ScaleYV12ToRGB32, yStart, uvStart420, effWidth, effHeight,
      startsRight, startsBottom, Bool.false_eq_true, if_false] at h12
    rw [seqOpt_getElem? _ _ h12 y, List.getElem?_map, List.getElem?_range hyn]
    simp only [Option.map_some', Option.join, Option.some_bind, id_eq]
    unfold yv12RowBody
    rw [htd, htd2]
    simp only [zero_add]
  · simp only [ScaleYV16ToRGB32, yStart, uvStart422, effWidth, effHeight,
      startsRight, startsBottom, Bool.false_eq_true, if_false] at h16
    rw [seqOpt_getElem? _ _ h16 y, List.getElem?_map, List.getElem?_range hyn]
    simp only [Option.map_some', Option.join, Option.some_bind, id_eq]
    unfold yv16RowBody
    rw [htd]
    simp only [zero_add]

/-- Witness for `C9_vertical_row_selection`: a 2x3 frame scaled to 2x2,
destination row 1 (source luma row 1, chroma row 0). -/
theorem C9_witness :
    ([[4278190080, 4278519045], [4279308561, 4280032284]] :
        List (List Nat))[1]? =
      (if (2 : Int) = 2 then
        ConvertYV12ToRGB32Row [10, 20, 30, 40, 50, 60] [128] [128]
          (((1 : Nat) : Int) * 3 / 2 * 2) (((1 : Nat) : Int) * 3 / 2 / 2 * 1)
          (((1 : Nat) : Int) * 3 / 2 / 2 * 1) 2
      else if (2 : Int) = Int.tdiv 2 2 then
        HalfYV12ToRGB32Row [10, 20, 30, 40, 50, 60] [128] [128]
          (((1 : Nat) : Int) * 3 / 2 * 2) (((1 : Nat) : Int) * 3 / 2 / 2 * 1)
          (((1 : Nat) : Int) * 3 / 2 / 2 * 1) 2
      else
        ScaleYV12ToRGB32Row [10, 20, 30, 40, 50, 60] [128] [128]
          (((1 : Nat) : Int) * 3 / 2 * 2) (((1 : Nat) : Int) * 3 / 2 / 2 * 1)
          (((1 : Nat) : Int) * 3 / 2 / 2 * 1) 2 2) ∧
    ([[4278190080, 4278519045], [4279308561, 4280032284]] :
        List (List Nat))[1]? =
      (if (2 : Int) = Int.tdiv 2 2 then
        HalfYV12ToRGB32Row [10, 20, 30, 40, 50, 60] [128, 128, 128]
          [128, 128, 128] (((1 : Nat) : Int) * 3 / 2 * 2)
          (((1 : Nat) : Int) * 3 / 2 * 1) (((1 : Nat) : Int) * 3 / 2 * 1) 2
      else
        ScaleYV12ToRGB32Row [10, 20, 30, 40, 50, 60] [128, 128, 128]
          [128, 128, 128] (((1 : Nat) : Int) * 3 / 2 * 2)
          (((1 : Nat) : Int) * 3 / 2 * 1) (((1 : Nat) : Int) * 3 / 2 * 1)
          2 2) :=
  C9_vertical_row_selection [10, 20, 30, 40, 50, 60] [128] [128]
    [10, 20, 30, 40, 50, 60] [128, 128, 128] [128, 128, 128] 2 3 2 2 2 1
    [[4278190080, 4278519045], [4279308561, 4280032284]]
    [[4278190080, 4278519045], [4279308561, 4280032284]] 1
    (by decide) (by decide) (by decide) (by decide)

/-! ### Write footprint of the frame scaler (C10) -/

theorem writePixelBytes_ne (buf : Int → Nat) (o : Int) (p : Nat) (i : Int)
    (h0 : i ≠ o) (h1 : i ≠ o + 1) (h2 : i ≠ o + 2) (h3 : i ≠ o + 3) :
    writePixelBytes buf o p i = buf i := by
  simp [writePixelBytes, h0, h1, h2, h3]

theorem writePixelBytes_at (buf : Int → Nat) (o : Int) (p : Nat) (b : Nat)
    (hb : b < 4) : writePixelBytes buf o p (o + (b : Int)) = pixelByte p b := by
  interval_cases b
  · simp only [Nat.cast_zero, add_zero, writePixelBytes, if_pos rfl]
    norm_num [pixelByte]
  · simp only [Nat.cast_one, writePixelBytes]
    norm_num [pixelByte]
  · simp only [Nat.cast_ofNat, writePixelBytes]
    norm_num [pixelByte]
  · simp only [Nat.cast_ofNat, writePixelBytes]
    norm_num [pixelByte]

theorem writeRowPixels_ne : ∀ (row : List Nat) (buf : Int → Nat) (o i : Int),
    (∀ k : Nat, k < 4 * row.length → i ≠ o + (k : Int)) →
    writeRowPixels buf o row i = buf i := by
  intro row
  induction row with
  | nil => intro buf o i _; rfl
  | cons p rest ih =>
    intro buf o i h
    show writeRowPixels (writePixelBytes buf o p) (o + 4) rest i = _
    rw [ih (writePixelBytes buf o p) (o + 4) i ?hrest]
    · refine writePixelBytes_ne buf o p i ?_ ?_ ?_ ?_
      · simpa using h 0 (by simp only [List.length_cons]; omega)
      · simpa using h 1 (by simp only [List.length_cons]; omega)
      · simpa using h 2 (by simp only [List.length_cons]; omega)
      · simpa using h 3 (by simp only [List.length_cons]; omega)
    case hrest =>
      intro k hk
      have hyp := h (k + 4) (by simp only [List.length_cons]; omega)
      push_cast at hyp ⊢
      omega

theorem writeRowPixels_get : ∀ (row : List Nat) (buf : Int → Nat) (o : Int)
    (x p : Nat), row[x]? = some p → ∀ b : Nat, b < 4 →
    writeRowPixels buf o row (o + ((4 * x + b : Nat) : Int)) = pixelByte p b := by
  intro row
  induction row with
  | nil =>
    intro _ _ x p hx
    simp at hx
  | cons q rest ih =>
    intro buf o x p hx b hb
    cases x with
    | zero =>
      have hq : q = p := by simpa using hx
      subst hq
      show writeRowPixels (writePixelBytes buf o q) (o + 4) rest _ = _
      rw [writeRowPixels_ne rest _ (o + 4) _ ?houtside]
      · have e : (o + ((4 * 0 + b : Nat) : Int)) = o + (b : Int) := by
          push_cast
          ring
        rw [e]
        exact writePixelBytes_at buf o q b hb
      case houtside =>
        intro k hk
        push_cast
        omega
    | succ x2 =>
      show writeRowPixels (writePixelBytes buf o q) (o + 4) rest _ = _
      have e : (o + ((4 * (x2 + 1) + b : Nat) : Int)) =
          ((o + 4) + ((4 * x2 + b : Nat) : Int)) := by
        push_cast
        ring
      rw [e]
      exact ih (writePixelBytes buf o q) (o + 4) x2 p (by simpa using hx) b hb

theorem writeFrameRows_ne : ∀ (rows : List (List Nat)) (buf : Int → Nat)
    (pitch y0 i : Int),
    (∀ (j : Nat) (row : List Nat), rows[j]? = some row →
      ∀ k : Nat, k < 4 * row.length →
        i ≠ (y0 + (j : Int)) * pitch + (k : Int)) →
    writeFrameRows buf pitch y0 rows i = buf i := by
  intro rows
  induction rows with
  | nil => intro buf pitch y0 i _; rfl
  | cons row rest ih =>
    intro buf pitch y0 i h
    show writeFrameRows (writeRowPixels buf (y0 * pitch) row) pitch (y0 + 1)
      rest i = _
    rw [ih _ pitch (y0 + 1) i ?hrest]
    · apply writeRowPixels_ne
      intro k hk
      have hyp := h 0 row (by simp) k hk
      push_cast at hyp
      simpa using hyp
    case hrest =>
      intro j row2 hj k hk
      have hyp := h (j + 1) row2 (by simpa using hj) k hk
      have e : (y0 + 1 + (j : Int)) * pitch = (y0 + ((j + 1 : Nat) : Int)) * pitch := by
        push_cast
        ring
      rw [e]
      exact hyp

theorem writeFrameRows_get : ∀ (rows : List (List Nat)) (buf : Int → Nat)
    (pitch y0 : Int) (j : Nat) (row : List Nat) (x p : Nat),
    rows[j]? = some row → row[x]? = some p →
    (∀ r ∈ rows, ((4 * r.length : Nat) : Int) ≤ pitch) → 0 ≤ pitch →
    ∀ b : Nat, b < 4 →
    writeFrameRows buf pitch y0 rows
        ((y0 + (j : Int)) * pitch + ((4 * x + b : Nat) : Int)) =
      pixelByte p b := by
  intro rows
  induction rows with
  | nil =>
    intro _ _ _ j row x p hj
    simp at hj
  | cons r rest ih =>
    intro buf pitch y0 j row x p hj hx hall hp b hb
    cases j with
    | zero =>
      have hr : r = row := by simpa using hj
      subst hr
      show writeFrameRows (writeRowPixels buf (y0 * pitch) r) pitch (y0 + 1)
        rest _ = _
      rw [writeFrameRows_ne rest _ pitch (y0 + 1) _ ?hrest]
      · have e : ((y0 + ((0 : Nat) : Int)) * pitch + ((4 * x + b : Nat) : Int)) =
            (y0 * pitch) + ((4 * x + b : Nat) : Int) := by
          push_cast
          ring
        rw [e]
        exact writeRowPixels_get r buf (y0 * pitch) x p hx b hb
      case hrest =>
        intro j2 row2 hj2 k hk
        have hbound2 : 4 * (x : Int) + (b : Int) < pitch := by
          have hxlen : x < r.length := by
            rcases List.getElem?_eq_some.mp hx with ⟨hl, _⟩
            exact hl
          have hr4 := hall r (by simp)
          push_cast at hr4
          omega
        have hmul : (y0 + 1) * pitch ≤ (y0 + 1 + (j2 : Int)) * pitch :=
          mul_le_mul_of_nonneg_right (by omega) hp
        have h2 : y0 * pitch + (4 * (x : Int) + (b : Int)) <
            (y0 + 1) * pitch := by
          have e1 : (y0 + 1) * pitch = y0 * pitch + pitch := by ring
          linarith
        have hchain : y0 * pitch + (4 * (x : Int) + (b : Int)) <
            (y0 + 1 + (j2 : Int)) * pitch + (k : Int) := by
          have hknn : (0 : Int) ≤ (k : Int) := by positivity
          linarith
        push_cast
        simp only [add_zero]
        exact ne_of_lt hchain
    | succ j2 =>
      show writeFrameRows (writeRowPixels buf (y0 * pitch) r) pitch (y0 + 1)
        rest _ = _
      have e : ((y0 + ((j2 + 1 : Nat) : Int)) * pitch) =
          ((y0 + 1) + (j2 : Int)) * pitch := by
        push_cast
        ring
      rw [e]
      exact ih _ pitch (y0 + 1) j2 row x p (by simpa using hj) hx
        (fun r2 hr2 => hall r2 (by simp [hr2])) hp b hb

theorem yv12RowBody_length (ybuf ubuf vbuf : List Nat)
    (yo uo vo w h sw sh yp up : Int) (y : Nat) (out : List Nat)
    (hr : yv12RowBody ybuf ubuf vbuf yo uo vo w h sw sh yp up y = some out) :
    out.length = sw.toNat := by
  unfold yv12RowBody at hr
  split at hr
  · exact ConvertYV12ToRGB32Row_length _ _ _ _ _ _ _ _ hr
  · split at hr
    · exact HalfYV12ToRGB32Row_length _ _ _ _ _ _ _ _ hr
    · exact ScaleYV12ToRGB32Row_length _ _ _ _ _ _ _ _ _ hr

theorem ScaleYV12ToRGB32_length (ybuf ubuf vbuf : List Nat)
    (w h sw sh yp up : Int) (r : Rotate) (rows : List (List Nat))
    (hrows : ScaleYV12ToRGB32 ybuf ubuf vbuf w h sw sh yp up r = some rows) :
    rows.length = sh.toNat := by
  unfold ScaleYV12ToRGB32 at hrows
  simpa using seqOpt_length _ _ hrows

theorem ScaleYV12ToRGB32_row_length (ybuf ubuf vbuf : List Nat)
    (w h sw sh yp up : Int) (r : Rotate) (rows : List (List Nat)) (j : Nat)
    (row : List Nat)
    (hrows : ScaleYV12ToRGB32 ybuf ubuf vbuf w h sw sh yp up r = some rows)
    (hj : rows[j]? = some row) : row.length = sw.toNat := by
  unfold ScaleYV12ToRGB32 at hrows
  have hg := seqOpt_getElem? _ _ hrows j
  rw [hj] at hg
  by_cases hlt : j < sh.toNat
  · rw [List.getElem?_map, List.getElem?_range hlt] at hg
    simp only [Option.map_some', Option.join, Option.some_bind, id_eq] at hg
    exact yv12RowBody_length _ _ _ _ _ _ _ _ _ _ _ _ _ _ hg.symm
  · rw [List.getElem?_eq_none (by simpa using hlt)] at hg
    simp at hg

/-- Claim C10: each 4:2:0 frame-scaler call writes, for every destination row
`y`, exactly the `4 * scaled_width` bytes starting at offset `y * rgb_pitch`
of the output buffer: every byte outside that footprint keeps its previous
value, and (when `rgb_pitch` at least covers a row, so rows cannot overlap)
byte `b` of pixel `x` of row `y` holds the corresponding little-endian byte
of the produced pixel.  The source planes are taken by `const` pointer and
are never written. -/
theorem C10_write_footprint (ybuf ubuf vbuf : List Nat) (rgb : Int → Nat)
    (w h sw sh yp up pitch : Int) (r : Rotate) (rows : List (List Nat))
    (buf2 : Int → Nat)
    (hrows : ScaleYV12ToRGB32 ybuf ubuf vbuf w h sw sh yp up r = some rows)
    (hbuf : ScaleYV12ToRGB32Into ybuf ubuf vbuf rgb w h sw sh yp up pitch r =
      some buf2) :
    (∀ o : Int,
      (∀ yj : Nat, yj < sh.toNat → ∀ k : Nat, k < 4 * sw.toNat →
        o ≠ (yj : Int) * pitch + (k : Int)) →
      buf2 o = rgb o) ∧
    (4 * sw ≤ pitch →
      ∀ (yj x : Nat) (row : List Nat) (p : Nat), rows[yj]? = some row →
        row[x]? = some p → ∀ b : Nat, b < 4 →
        buf2 ((yj : Int) * pitch + ((4 * x + b : Nat) : Int)) =
          pixelByte p b) := by
  have hbuf2 : buf2 = writeFrameRows rgb pitch 0 rows := by
    unfold ScaleYV12ToRGB32Into at hbuf
    rw [hrows] at hbuf
    simpa using hbuf.symm
  subst hbuf2
  constructor
  · intro o ho
    apply writeFrameRows_ne
    intro j row hj k hk
    have hjlen : j < rows.length := by
      rcases List.getElem?_eq_some.mp hj with ⟨hl, _⟩
      exact hl
    have hjlt : j < sh.toNat := by
      rw [ScaleYV12ToRGB32_length _ _ _ _ _ _ _ _ _ _ _ hrows] at hjlen
      exact hjlen
    have hrl : row.length = sw.toNat :=
      ScaleYV12ToRGB32_row_length _ _ _ _ _ _ _ _ _ _ _ _ _ hrows hj
    have hne := ho j hjlt k (by omega)
    simpa using hne
  · intro hpitch yj x row p hyj hx b hb
    have hxlen : x < row.length := by
      rcases List.getElem?_eq_some.mp hx with ⟨hl, _⟩
      exact hl
    have hrowlen : row.length = sw.toNat :=
      ScaleYV12ToRGB32_row_length _ _ _ _ _ _ _ _ _ _ _ _ _ hrows hyj
    have hsw1 : 1 ≤ sw := by omega
    have hall : ∀ r2 ∈ rows, ((4 * r2.length : Nat) : Int) ≤ pitch := by
      intro r2 hr2
      obtain ⟨j2, hj2⟩ := List.getElem?_of_mem hr2
      have hl2 : r2.length = sw.toNat :=
        ScaleYV12ToRGB32_row_length _ _ _ _ _ _ _ _ _ _ _ _ _ hrows hj2
      rw [hl2]
      push_cast
      omega
    have hget := writeFrameRows_get rows rgb pitch 0 yj row x p hyj hx hall
      (by omega) b hb
    simpa using hget

/-- Witness for `C10_write_footprint`: the 2x3 frame scaled to 2x2 with
rgb_pitch 9, checking an untouched byte (offset -3) and a written byte
(row 1, pixel 1, byte 0). -/
theorem C10_witness :
    (writeFrameRows (fun _ => 7) 9 0
      [[4278190080, 4278519045], [4279308561, 4280032284]]) (-3) = 7 ∧
    (writeFrameRows (fun _ => 7) 9 0
      [[4278190080, 4278519045], [4279308561, 4280032284]])
        (((1 : Nat) : Int) * 9 + ((4 * 1 + 0 : Nat) : Int)) =
      pixelByte 4280032284 0 := by
  have hrows : ScaleYV12ToRGB32 [10, 20, 30, 40, 50, 60] [128] [128]
      2 3 2 2 2 1 ROTATE_0 =
      some [[4278190080, 4278519045], [4279308561, 4280032284]] := by decide
  have hbuf : ScaleYV12ToRGB32Into [10, 20, 30, 40, 50, 60] [128] [128]
      (fun _ => 7) 2 3 2 2 2 1 9 ROTATE_0 =
      some (writeFrameRows (fun _ => 7) 9 0
        [[4278190080, 4278519045], [4279308561, 4280032284]]) := by
    unfold ScaleYV12ToRGB32Into
    rw [hrows]
    rfl
  have hthm := C10_write_footprint [10, 20, 30, 40, 50, 60] [128] [128]
    (fun _ => 7) 2 3 2 2 2 1 9 ROTATE_0
    [[4278190080, 4278519045], [4279308561, 4280032284]] _ hrows hbuf
  exact ⟨hthm.1 (-3) (by decide), hthm.2 (by decide) 1 1
    [4279308561, 4280032284] 4280032284 (by decide) (by decide) 0 (by decide)⟩

/-! ### seqOpt over reversed and mapped lists (used for C4) -/

theorem seqOpt_append {α : Type} :
    ∀ l₁ l₂ : List (Option α), seqOpt (l₁ ++ l₂) =
      (seqOpt l₁).bind fun a => (seqOpt l₂).bind fun b => some (a ++ b) := by
  intro l₁
  induction l₁ with
  | nil =>
    intro l₂
    simp [seqOpt]
  | cons o rest ih =>
    intro l₂
    rw [List.cons_append, seqOpt_cons, seqOpt_cons, ih]
    cases o with
    | none => rfl
    | some a =>
      cases seqOpt rest with
      | none => rfl
      | some l =>
        cases seqOpt l₂ <;> rfl

theorem seqOpt_reverse {α : Type} :
    ∀ l : List (Option α), seqOpt l.reverse = (seqOpt l).map List.reverse := by
  intro l
  induction l with
  | nil => rfl
  | cons o rest ih =>
    rw [seqOpt_cons, List.reverse_cons, seqOpt_append, ih]
    cases o with
    | none =>
      cases seqOpt rest <;> rfl
    | some a =>
      cases seqOpt rest <;> simp [seqOpt]

theorem seqOpt_map_map {α β : Type} (f : α → β) :
    ∀ l : List (Option α),
      seqOpt (l.map (Option.map f)) = (seqOpt l).map (List.map f) := by
  intro l
  induction l with
  | nil => rfl
  | cons o rest ih =>
    rw [List.map_cons, seqOpt_cons, seqOpt_cons, ih]
    cases o with
    | none => rfl
    | some a =>
      cases seqOpt rest <;> rfl

theorem map_range_reverse {α : Type} (g : Nat → α) (n : Nat) :
    (List.range n).map (fun i => g (n - 1 - i)) =
      ((List.range n).map g).reverse := by
  apply List.ext_getElem?
  intro i
  by_cases hi : i < n
  · rw [List.getElem?_map, List.getElem?_range hi,
      List.getElem?_reverse (by simpa using hi), List.getElem?_map]
    simp only [List.length_map, List.length_range]
    rw [List.getElem?_range (by omega)]
    rfl
  · rw [List.getElem?_eq_none (by simpa using hi),
      List.getElem?_eq_none (by simp; omega)]

theorem getElem?_eq_some_getD {l : List Nat} {i : Nat} (h : i < l.length) :
    l[i]? = some (l.getD i 0) := by
  rw [List.getD_eq_getElem?_getD, List.getElem?_eq_getElem h]
  rfl

/-- One pixel of the 180-degree pass (general converter at step -32, plane
pointers rebased to the bottom-right corner) equals the mirrored pixel of the
0-degree pass (half converter) when the adjacent luma pair it halves is
equal. -/
theorem c4_pixel (ybuf ubuf vbuf : List Nat) (m n p q y x : Nat)
    (hm : 0 < m) (hn : 0 < n) (hp : 2 * m + 1 ≤ p) (hq : m ≤ q)
    (hylen : ybuf.length = 2 * n * p) (hulen : ubuf.length = n * q)
    (hvlen : vbuf.length = n * q)
    (hpair : ybuf[(2 * n - 1 - y) * p + 2 * (m - 1 - x)]? =
      ybuf[(2 * n - 1 - y) * p + 2 * (m - 1 - x) + 1]?)
    (hy : y < 2 * n) (hx : x < m) :
    scalePixelAt ybuf ubuf vbuf
      (2 * (m : Int) - 1 + (2 * (n : Int) - 1) * (p : Int) +
        -(y : Int) * (p : Int))
      ((m : Int) - 1 + ((n : Int) - 1) * (q : Int) +
        Int.tdiv (-(y : Int)) 2 * (q : Int))
      ((m : Int) - 1 + ((n : Int) - 1) * (q : Int) +
        Int.tdiv (-(y : Int)) 2 * (q : Int))
      ((x : Int) * (-32)) =
    halfPixelAt ybuf ubuf vbuf
      (((2 * n - 1 - y : Nat) : Int) * (p : Int))
      (Int.tdiv ((2 * n - 1 - y : Nat) : Int) 2 * (q : Int))
      (Int.tdiv ((2 * n - 1 - y : Nat) : Int) 2 * (q : Int))
      (m - 1 - x) := by
  have ha5 : asr ((x : Int) * (-32)) 5 = -(x : Int) := by
    have e : (x : Int) * (-32) = -(x : Int) * 2 ^ 5 := by ring
    rw [e, asr, Int.mul_fdiv_cancel _ (by norm_num)]
  have ha4 : asr ((x : Int) * (-32)) 4 = -(2 * (x : Int)) := by
    have e : (x : Int) * (-32) = -(2 * (x : Int)) * 2 ^ 4 := by ring
    rw [e, asr, Int.mul_fdiv_cancel _ (by norm_num)]
  have hpat : interpPattern ((x : Int) * (-32)) = 0 := by
    have e : (x : Int) * (-32) = 16 * ((x : Int) * (-2)) := by ring
    rw [interpPattern, e, Int.mul_emod_right]
    rfl
  have htdy : Int.tdiv (-(y : Int)) 2 = -((y / 2 : Nat) : Int) := by
    rw [Int.neg_tdiv, Int.tdiv_eq_ediv (by positivity) (by norm_num)]
    omega
  have htdy2 : Int.tdiv ((2 * n - 1 - y : Nat) : Int) 2 =
      ((n - 1 - y / 2 : Nat) : Int) := by
    rw [Int.tdiv_eq_ediv (by positivity) (by norm_num)]
    omega
  have e1 : ((n - 1 - y / 2 : Nat) : Int) =
      (n : Int) - 1 - ((y / 2 : Nat) : Int) := by omega
  have e2 : ((m - 1 - x : Nat) : Int) = (m : Int) - 1 - (x : Int) := by omega
  have e3 : ((2 * n - 1 - y : Nat) : Int) = 2 * (n : Int) - 1 - (y : Int) := by
    omega
  have ecu : (m : Int) - 1 + ((n : Int) - 1) * (q : Int) +
      Int.tdiv (-(y : Int)) 2 * (q : Int) + asr ((x : Int) * (-32)) 5 =
      (((n - 1 - y / 2) * q + (m - 1 - x) : Nat) : Int) := by
    rw [ha5, htdy]
    push_cast [e1, e2]
    ring
  have ecy0 : 2 * (m : Int) - 1 + (2 * (n : Int) - 1) * (p : Int) +
      -(y : Int) * (p : Int) + asr ((x : Int) * (-32)) 4 =
      (((2 * n - 1 - y) * p + 2 * (m - 1 - x) + 1 : Nat) : Int) := by
    rw [ha4]
    push_cast [e3, e2]
    ring
  have ecy1 : (((2 * n - 1 - y) * p + 2 * (m - 1 - x) + 1 : Nat) : Int) + 1 =
      (((2 * n - 1 - y) * p + 2 * (m - 1 - x) + 2 : Nat) : Int) := by
    push_cast
    ring
  have ehy0 : (((2 * n - 1 - y : Nat) : Int)) * (p : Int) +
      ((m - 1 - x : Nat) : Int) * 2 =
      (((2 * n - 1 - y) * p + 2 * (m - 1 - x) : Nat) : Int) := by
    push_cast [e3, e2]
    ring
  have ehy1 : (((2 * n - 1 - y) * p + 2 * (m - 1 - x) : Nat) : Int) + 1 =
      (((2 * n - 1 - y) * p + 2 * (m - 1 - x) + 1 : Nat) : Int) := by
    push_cast
    ring
  have ehu : Int.tdiv ((2 * n - 1 - y : Nat) : Int) 2 * (q : Int) +
      ((m - 1 - x : Nat) : Int) =
      (((n - 1 - y / 2) * q + (m - 1 - x) : Nat) : Int) := by
    rw [htdy2]
    push_cast
    ring
  have hCb : (n - 1 - y / 2) * q + (m - 1 - x) < n * q := by
    have h1 : (n - 1 - y / 2) * q ≤ (n - 1) * q :=
      Nat.mul_le_mul_right q (by omega)
    have h2 : (n - 1) * q + q = n * q := by
      calc (n - 1) * q + q = ((n - 1) + 1) * q := (Nat.succ_mul _ _).symm
        _ = n * q := by rw [(by omega : (n - 1) + 1 = n)]
    omega
  have hBb : (2 * n - 1 - y) * p + 2 * (m - 1 - x) + 2 < 2 * n * p := by
    have h1 : (2 * n - 1 - y) * p ≤ (2 * n - 1) * p :=
      Nat.mul_le_mul_right p (by omega)
    have h2 : (2 * n - 1) * p + p = 2 * n * p := by
      calc (2 * n - 1) * p + p = ((2 * n - 1) + 1) * p := (Nat.succ_mul _ _).symm
        _ = 2 * n * p := by rw [(by omega : (2 * n - 1) + 1 = 2 * n)]
    omega
  have r1 : ubuf[(n - 1 - y / 2) * q + (m - 1 - x)]? =
      some (ubuf.getD ((n - 1 - y / 2) * q + (m - 1 - x)) 0) :=
    getElem?_eq_some_getD (by rw [hulen]; exact hCb)
  have r2 : vbuf[(n - 1 - y / 2) * q + (m - 1 - x)]? =
      some (vbuf.getD ((n - 1 - y / 2) * q + (m - 1 - x)) 0) :=
    getElem?_eq_some_getD (by rw [hvlen]; exact hCb)
  have r3 : ybuf[(2 * n - 1 - y) * p + 2 * (m - 1 - x)]? =
      some (ybuf.getD ((2 * n - 1 - y) * p + 2 * (m - 1 - x)) 0) :=
    getElem?_eq_some_getD (by rw [hylen]; omega)
  have r4 : ybuf[(2 * n - 1 - y) * p + 2 * (m - 1 - x) + 1]? =
      some (ybuf.getD ((2 * n - 1 - y) * p + 2 * (m - 1 - x) + 1) 0) :=
    getElem?_eq_some_getD (by rw [hylen]; omega)
  have r5 : ybuf[(2 * n - 1 - y) * p + 2 * (m - 1 - x) + 2]? =
      some (ybuf.getD ((2 * n - 1 - y) * p + 2 * (m - 1 - x) + 2) 0) :=
    getElem?_eq_some_getD (by rw [hylen]; omega)
  have hpairval : ybuf.getD ((2 * n - 1 - y) * p + 2 * (m - 1 - x)) 0 =
      ybuf.getD ((2 * n - 1 - y) * p + 2 * (m - 1 - x) + 1) 0 := by
    rw [r3, r4] at hpair
    exact Option.some.inj hpair
  unfold scalePixelAt halfPixelAt
  rw [ecu, ecy0, ecy1, ehy0, ehy1, ehu, hpat]
  have hblend : ∀ a c : Nat, blendLuma a c 0 = a := fun a c => rfl
  have hhalf : ∀ a : Nat, (a + a) >>> 1 = a := by
    intro a
    rw [Nat.shiftRight_eq_div_pow]
    omega
  simp only [readU8_natCast, r1, r2, r3, r4, r5, Option.bind_eq_bind,
    Option.some_bind]
  rw [← hpairval]
  simp only [hblend, hhalf]

/-- One destination row of the 180-degree pass equals the reversed mirrored
row of the 0-degree pass, under the conditions of C4. -/
theorem c4_row (ybuf ubuf vbuf : List Nat) (m n p q y : Nat)
    (hm : 0 < m) (hn : 0 < n) (hp : 2 * m + 1 ≤ p) (hq : m ≤ q)
    (hylen : ybuf.length = 2 * n * p) (hulen : ubuf.length = n * q)
    (hvlen : vbuf.length = n * q)
    (hpairs : ∀ r : Nat, r < 2 * n → ∀ i : Nat, i < m →
      ybuf[r * p + 2 * i]? = ybuf[r * p + 2 * i + 1]?)
    (hy : y < 2 * n) :
    yv12RowBody ybuf ubuf vbuf
      (2 * (m : Int) - 1 + (2 * (n : Int) - 1) * (p : Int))
      ((m : Int) - 1 + ((n : Int) - 1) * (q : Int))
      ((m : Int) - 1 + ((n : Int) - 1) * (q : Int))
      (-(2 * (m : Int))) (-(2 * (n : Int))) (m : Int) (2 * (n : Int))
      (p : Int) (q : Int) y =
    (yv12RowBody ybuf ubuf vbuf 0 0 0 (2 * (m : Int)) (2 * (n : Int))
      (m : Int) (2 * (n : Int)) (p : Int) (q : Int) (2 * n - 1 - y)).map
      List.reverse := by
  have hm0 : (m : Int) ≠ 0 := by omega
  have h2n0 : (2 * (n : Int)) ≠ 0 := by omega
  have hsy180 : Int.tdiv ((y : Int) * -(2 * (n : Int))) (2 * (n : Int)) =
      -(y : Int) := by
    rw [(by ring : (y : Int) * -(2 * (n : Int)) =
      -(y : Int) * (2 * (n : Int))), Int.mul_tdiv_cancel _ h2n0]
  have hsy0 : Int.tdiv (((2 * n - 1 - y : Nat) : Int) * (2 * (n : Int)))
      (2 * (n : Int)) = ((2 * n - 1 - y : Nat) : Int) :=
    Int.mul_tdiv_cancel _ h2n0
  have hw2 : Int.tdiv (-(2 * (m : Int))) 2 = -(m : Int) := by
    rw [(by ring : -(2 * (m : Int)) = 2 * -(m : Int)),
      Int.mul_tdiv_cancel_left _ (by norm_num)]
  have hw2m : Int.tdiv (2 * (m : Int)) 2 = (m : Int) :=
    Int.mul_tdiv_cancel_left _ (by norm_num)
  unfold yv12RowBody
  rw [hsy180, hsy0, hw2, hw2m]
  rw [if_neg (by omega : ¬((m : Int) = -(2 * (m : Int)))),
    if_neg (by omega : ¬((m : Int) = -(m : Int))),
    if_neg (by omega : ¬((m : Int) = 2 * (m : Int))), if_pos rfl]
  unfold ScaleYV12ToRGB32Row HalfYV12ToRGB32Row
  rw [if_neg (by omega : ¬((m : Int) = 0))]
  have hdx : Int.tdiv (-(2 * (m : Int)) * 16) (m : Int) = -32 := by
    rw [(by ring : -(2 * (m : Int)) * 16 = -32 * (m : Int)),
      Int.mul_tdiv_cancel _ hm0]
  rw [hdx, scaleRowAux_eq, collect_eq]
  simp only [Int.toNat_natCast]
  rw [← seqOpt_reverse, ← map_range_reverse
    (fun k => halfPixelAt ybuf ubuf vbuf
      (0 + ((2 * n - 1 - y : Nat) : Int) * (p : Int))
      (0 + Int.tdiv ((2 * n - 1 - y : Nat) : Int) 2 * (q : Int))
      (0 + Int.tdiv ((2 * n - 1 - y : Nat) : Int) 2 * (q : Int)) (0 + k)) m]
  congr 1
  apply List.map_congr_left
  intro k hk
  have hkm : k < m := List.mem_range.mp hk
  simp only [zero_add]
  exact c4_pixel ybuf ubuf vbuf m n p q y k hm hn hp hq hylen hulen hvlen
    (hpairs (2 * n - 1 - y) (by omega) (m - 1 - k) (by omega)) hy hkm

/-- Claim C4 (amended): with destination width exactly half the (even) source
width, equal destination and source heights, pitched planes (`y_pitch` at
least `width + 1` to cover the mirrored converter's one-sample luma
lookahead, `uv_pitch` at least `width/2`), and each horizontally adjacent
luma pair equal, the 180-degree output is pixel-for-pixel the row-and-column
reversal of the 0-degree output.  Without these conditions the outputs can
differ (`C4_cx_rot180_not_reverse_of_rot0`): truncating division and the
mirrored fixed-point walk select different luma/chroma pairings. -/
theorem C4_rot180_reverses_rot0_on_half_ratio (ybuf ubuf vbuf : List Nat)
    (m n p q : Nat) (hm : 0 < m) (hn : 0 < n) (hp : 2 * m + 1 ≤ p)
    (hq : m ≤ q) (hylen : ybuf.length = 2 * n * p)
    (hulen : ubuf.length = n * q) (hvlen : vbuf.length = n * q)
    (hpairs : ∀ r : Nat, r < 2 * n → ∀ i : Nat, i < m →
      ybuf[r * p + 2 * i]? = ybuf[r * p + 2 * i + 1]?) :
    ScaleYV12ToRGB32 ybuf ubuf vbuf (2 * (m : Int)) (2 * (n : Int)) (m : Int)
      (2 * (n : Int)) (p : Int) (q : Int) ROTATE_180 =
    (ScaleYV12ToRGB32 ybuf ubuf vbuf (2 * (m : Int)) (2 * (n : Int)) (m : Int)
      (2 * (n : Int)) (p : Int) (q : Int) ROTATE_0).map
      (fun rows => (rows.map List.reverse).reverse) := by
  have hw2m : Int.tdiv (2 * (m : Int)) 2 = (m : Int) :=
    Int.mul_tdiv_cancel_left _ (by norm_num)
  have hw2n : Int.tdiv (2 * (n : Int)) 2 = (n : Int) :=
    Int.mul_tdiv_cancel_left _ (by norm_num)
  have htn : (2 * (n : Int)).toNat = 2 * n := by omega
  unfold ScaleYV12ToRGB32
  simp only [yStart, uvStart420, effWidth, effHeight, startsRight,
    startsBottom, eq_self_iff_true, Bool.false_eq_true, if_true, if_false,
    hw2m, hw2n, htn, add_zero, zero_add]
  have hrow : ∀ y ∈ List.range (2 * n),
      yv12RowBody ybuf ubuf vbuf
        (2 * (m : Int) - 1 + (2 * (n : Int) - 1) * (p : Int))
        ((m : Int) - 1 + ((n : Int) - 1) * (q : Int))
        ((m : Int) - 1 + ((n : Int) - 1) * (q : Int))
        (-(2 * (m : Int))) (-(2 * (n : Int))) (m : Int) (2 * (n : Int))
        (p : Int) (q : Int) y =
      Option.map List.reverse (yv12RowBody ybuf ubuf vbuf 0 0 0
        (2 * (m : Int)) (2 * (n : Int)) (m : Int) (2 * (n : Int)) (p : Int)
        (q : Int) (2 * n - 1 - y)) := by
    intro y hymem
    exact c4_row ybuf ubuf vbuf m n p q y hm hn hp hq hylen hulen hvlen
      hpairs (List.mem_range.mp hymem)
  rw [List.map_congr_left hrow]
  have hlist : (List.range (2 * n)).map (fun a =>
      Option.map List.reverse (yv12RowBody ybuf ubuf vbuf 0 0 0
        (2 * (m : Int)) (2 * (n : Int)) (m : Int) (2 * (n : Int)) (p : Int)
        (q : Int) (2 * n - 1 - a))) =
      ((List.range (2 * n)).map (fun a =>
        Option.map List.reverse (yv12RowBody ybuf ubuf vbuf 0 0 0
          (2 * (m : Int)) (2 * (n : Int)) (m : Int) (2 * (n : Int)) (p : Int)
          (q : Int) a))).reverse :=
    map_range_reverse (fun a =>
      Option.map List.reverse (yv12RowBody ybuf ubuf vbuf 0 0 0
        (2 * (m : Int)) (2 * (n : Int)) (m : Int) (2 * (n : Int)) (p : Int)
        (q : Int) a)) (2 * n)
  rw [hlist]
  have hlist2 : (List.range (2 * n)).map (fun a =>
      Option.map List.reverse (yv12RowBody ybuf ubuf vbuf 0 0 0
        (2 * (m : Int)) (2 * (n : Int)) (m : Int) (2 * (n : Int)) (p : Int)
        (q : Int) a)) =
      ((List.range (2 * n)).map (yv12RowBody ybuf ubuf vbuf 0 0 0
        (2 * (m : Int)) (2 * (n : Int)) (m : Int) (2 * (n : Int)) (p : Int)
        (q : Int))).map (Option.map List.reverse) := by
    rw [List.map_map]
    rfl
  rw [hlist2, seqOpt_reverse, seqOpt_map_map]
  cases seqOpt ((List.range (2 * n)).map
      (yv12RowBody ybuf ubuf vbuf 0 0 0 (2 * (m : Int)) (2 * (n : Int))
        (m : Int) (2 * (n : Int)) (p : Int) (q : Int))) with
  | none => rfl
  | some rows => rfl

/-- Witness for `C4_rot180_reverses_rot0_on_half_ratio`: a 2x2 frame scaled
to 1x2 with padded pitches and pairwise-equal luma. -/
theorem C4_witness :
    ScaleYV12ToRGB32 [5, 5, 9, 8, 8, 4] [100] [200] (2 * ((1 : Nat) : Int))
      (2 * ((1 : Nat) : Int)) ((1 : Nat) : Int) (2 * ((1 : Nat) : Int))
      ((3 : Nat) : Int) ((1 : Nat) : Int) ROTATE_180 =
    (ScaleYV12ToRGB32 [5, 5, 9, 8, 8, 4] [100] [200] (2 * ((1 : Nat) : Int))
      (2 * ((1 : Nat) : Int)) ((1 : Nat) : Int) (2 * ((1 : Nat) : Int))
      ((3 : Nat) : Int) ((1 : Nat) : Int) ROTATE_0).map
      (fun rows => (rows.map List.reverse).reverse) :=
  C4_rot180_reverses_rot0_on_half_ratio [5, 5, 9, 8, 8, 4] [100] [200] 1 1 3 1
    (by decide) (by decide) (by decide) (by decide) (by decide) (by decide)
    (by decide) (by decide)

end media
